import Mathlib

/-!
# document-converter: job lifecycle, notification fan-out and retention sweep

A shallow embedding of `src/main.go` and `src/services/db.go`.

* Go strings are Lean `String`s; the byte-wise searches `strings.Index` and
  `strings.Contains` are modelled on the character list (both sides of every
  slice use the same unit, so the extracted substrings agree).
* A Go `error` is an `Option String`: `none` is `nil`, `some m` is an error
  whose `Error()` text is `m`. The errors of `os.MkdirAll` and `saveFile`,
  whose text the program stores, are values of `OsError` with the method
  `Error()` of the Go library.
* A `time.Time` is the natural number of its instant; `0` is the zero value.
  The store keeps a time stamp as text with the zone offset, and compares such
  texts (`sqlStamp`, `sqlLt`).
* The SQLite table `converts` is the list of its rows; every store call takes
  an explicit flag saying whether the driver reports an I/O error.
* Every outcome of the operating system, the converter process and the
  websocket writes is an explicit argument (`ConvIO`, `CreateIO`, `DeleteIO`,
  `SweepIO`); the functions of the path library are not computed, the one
  path that is stored is taken from `ConvIO.convertedFile`.
* Every store call, directory removal, broadcast and websocket write is
  appended to `Server.trace`, so orderings can be stated.
* The server as a whole is `Sys`: the state of `Server`, the goroutines that
  uploads have started, and the identifiers handed out; `Op` lists what can
  happen to it.
-/

namespace DocConv

/-! ## Constants (main.go 31-35) -/

def StatusPending : String := "pending"
def StatusComplete : String := "complete"
def StatusFailed : String := "failed"

/-- A Go `error` value: `none` is `nil`, `some m` has `Error() = m`. -/
abbrev GoError := Option String

/-- The errors that `os.MkdirAll`, `os.Create` and `io.Copy` between two files
return, after the Go standard library: a `*fs.PathError` with its fields `Op`,
`Path` and the text of `Err`, or one of the two errors of `io.Copy` itself,
`io.ErrShortWrite` and the invalid write result. -/
inductive OsError where
  | pathError (Op Path Err : String)
  | shortWrite
  | invalidWrite
deriving DecidableEq, Repr

/-- The method `Error()` of these errors; for a `*fs.PathError` the library
has `e.Op + " " + e.Path + ": " + e.Err.Error()`. -/
def OsError.Error : OsError → String
  | OsError.pathError op path err => op ++ " " ++ path ++ ": " ++ err
  | OsError.shortWrite => "short write"
  | OsError.invalidWrite => "invalid write result"

/-! ## services/db.go -/

/-- The struct `services.ConvertJob` (db.go 14-22). -/
structure ConvertJob where
  ID : String
  OriginalFile : String := ""
  ConvertedFile : String := ""
  Status : String := ""
  Error : String := ""
  CreatedAt : Nat := 0
  UpdatedAt : Nat := 0
deriving DecidableEq, Repr

/-- The rows of table `converts`. -/
abbrev DB := List ConvertJob

/-- The table has `id TEXT PRIMARY KEY`: no two rows share an id. -/
def DB.WF (db : DB) : Prop := (db.map (fun r => r.ID)).Nodup

instance (db : DB) : Decidable (DB.WF db) := by unfold DB.WF; infer_instance

/-- Go `DB.CreateJob` (db.go 49-64): the INSERT fails on a driver error or on a
primary-key conflict; the result is the new table and whether it succeeded. -/
def DB.CreateJob (db : DB) (job : ConvertJob) (ioFails : Bool) : DB × Bool :=
  if ioFails || db.any (fun r => r.ID == job.ID) then (db, false)
  else (db ++ [job], true)

/-- Go `DB.UpdateJob` (db.go 66-82): `UPDATE converts SET status, error,
converted_file, updated_at WHERE id = ?`. A row that does not match is left
alone; no matching row at all is not an error. -/
def DB.UpdateJob (db : DB) (job : ConvertJob) (ioFails : Bool) : DB × Bool :=
  if ioFails then (db, false)
  else (db.map (fun r =>
    if r.ID = job.ID then
      { r with Status := job.Status, Error := job.Error,
               ConvertedFile := job.ConvertedFile, UpdatedAt := job.UpdatedAt }
    else r), true)

/-- Go `DB.GetJob` (db.go 84-103): the row with that id; `none` stands for
`(nil, err)`, which is also the answer when no row matches. -/
def DB.GetJob (db : DB) (id : String) (ioFails : Bool) : Option ConvertJob :=
  if ioFails then none else db.find? (fun r => r.ID == id)

/-- What decides the order of two time stamps as the driver go-sqlite3 writes
them, as the text "2006-01-02 15:04:05.999999999-07:00": the wall-clock
reading in the zone of the value (here the instant plus the offset), and the
zone offset that follows it. -/
structure SqlStamp where
  wall : Int
  offset : Int
deriving DecidableEq, Repr

/-- The stored text of the instant `t`, taken by `time.Now()` in the local
zone of the server; `zone t` is the offset of that zone from UTC at `t`. -/
def sqlStamp (zone : Nat → Int) (t : Nat) : SqlStamp :=
  { wall := (t : Int) + zone t, offset := zone t }

/-- The order of two offset suffixes as text: "+hh:mm" sorts before "-hh:mm",
as the plus sign is the smaller character; two suffixes of the same sign sort
by their digits. -/
def offsetTextLt (a b : Int) : Bool :=
  if 0 ≤ a then decide (b < 0) || decide (a < b)
  else decide (b < 0) && decide (b < a)

/-- The comparison `<` of SQLite on two stored time stamps, a comparison of
texts: first the wall-clock readings, then the offsets. -/
def sqlLt (a b : SqlStamp) : Bool :=
  decide (a.wall < b.wall) || (decide (a.wall = b.wall) && offsetTextLt a.offset b.offset)

/-- Go `DB.GetOldJobs` (db.go 105-134): `WHERE created_at < ?`, the column and
the bound cutoff both being texts with their zone offset. -/
def DB.GetOldJobs (db : DB) (zone : Nat → Int) (cutoffTime : Nat) (ioFails : Bool) :
    Option (List ConvertJob) :=
  if ioFails then none
  else some (db.filter (fun r => sqlLt (sqlStamp zone r.CreatedAt) (sqlStamp zone cutoffTime)))

/-- Go `DB.DeleteJob` (db.go 136-139): `DELETE FROM converts WHERE id = ?`. -/
def DB.DeleteJob (db : DB) (id : String) (ioFails : Bool) : DB × Bool :=
  if ioFails then (db, false) else (db.filter (fun r => r.ID != id), true)

/-! ## Go's `strings` package, as used by `processConversion` -/

/-- Position of the first occurrence of `sub` in the list, `none` for Go's `-1`. -/
def indexFrom (sub : List Char) : List Char → Option Nat
  | [] => if sub = [] then some 0 else none
  | c :: cs =>
    if sub.isPrefixOf (c :: cs) then some 0
    else (indexFrom sub cs).map (fun i => i + 1)

/-- Go `strings.Index(s, substr)`; `none` is `-1`. -/
def stringsIndex (s substr : String) : Option Nat := indexFrom substr.data s.data

/-- Go `strings.Contains(s, substr)`, which Go defines as `Index(s, substr) >= 0`. -/
def stringsContains (s substr : String) : Bool := (stringsIndex s substr).isSome

/-- The slice expression `s[i:]`. -/
def sliceFrom (s : String) (i : Nat) : String := ⟨s.data.drop i⟩

/-- The slice expression `s[:n]`. -/
def sliceTo (s : String) (n : Nat) : String := ⟨s.data.take n⟩

/-! ## Websocket messages and the event trace -/

/-- The structs `WebSocketMessage` (type `job_update`, payload the job) and
`WebSocketDeleteMessage` (type `job_delete`, the id), main.go 120-128. -/
inductive Message where
  | jobUpdate (payload : ConvertJob)
  | jobDelete (jobID : String)
deriving DecidableEq, Repr

/-- What the server did, in order. -/
inductive Action where
  | dbCreate (job : ConvertJob) (ok : Bool)
  | dbUpdate (job : ConvertJob) (ok : Bool)
  | dbDelete (id : String) (ok : Bool)
  | removeAll (id : String) (ok : Bool)
  | broadcast (msg : Message)
  | wsWrite (client : Nat) (msg : Message) (ok : Bool)
deriving DecidableEq, Repr

/-- The struct `Server` (main.go 130-136) together with the part of the world
it acts on: `dirs` lists the job ids whose working directory
`<tempDir>/<id>` exists, `clients` is the key set of the `clients` map. -/
structure Server where
  db : DB := []
  clients : List Nat := []
  dirs : List String := []
  trace : List Action := []
deriving DecidableEq, Repr

/-! ## Broadcasting (main.go 579-631) -/

/-- The `for client := range s.clients` loop shared by both broadcast
functions: one `WriteMessage` per registered client, a failed write is logged
and the loop continues. `wsFails c` says whether the write to `c` fails. -/
def writeAll (wsFails : Nat → Bool) (msg : Message) (clients : List Nat) : List Action :=
  clients.map (fun c => Action.wsWrite c msg (!wsFails c))

/-- Go `Server.broadcastJobUpdate` (main.go 606-631). The message holds strings
and time stamps only, for which `json.Marshal` returns no error, so the branch
for a marshalling error is not taken. -/
def broadcastJobUpdate (s : Server) (wsFails : Nat → Bool) (job : ConvertJob) : Server :=
  { s with trace := s.trace ++ Action.broadcast (Message.jobUpdate job)
                      :: writeAll wsFails (Message.jobUpdate job) s.clients }

/-- Go `Server.broadcastJobDelete` (main.go 579-604). The message holds two
strings, for which `json.Marshal` returns no error. -/
def broadcastJobDelete (s : Server) (wsFails : Nat → Bool) (jobID : String) : Server :=
  { s with trace := s.trace ++ Action.broadcast (Message.jobDelete jobID)
                      :: writeAll wsFails (Message.jobDelete jobID) s.clients }

/-! ## The lifecycle run (main.go 329-479, 633-651) -/

/-- Every outcome the environment can give one run of `processConversion`. -/
structure ConvIO where
  /-- the value of `time.Now()` -/
  now : Nat := 0
  /-- the first `s.db.GetJob` reports an error -/
  getInitialFails : Bool := false
  /-- result of `os.MkdirAll(originalDir, 0755)` -/
  mkdirOriginal : Option OsError := none
  /-- result of `os.MkdirAll(convertedDir, 0755)` -/
  mkdirConverted : Option OsError := none
  /-- result of `saveFile(file, originalPath)` -/
  saveFile : Option OsError := none
  /-- the error of `cmd.CombinedOutput()` (a non-zero exit or a failed start) -/
  cmdErr : GoError := none
  /-- the combined output of the converter -/
  output : String := ""
  /-- result of `os.Chmod(convertedDir, 0755)` -/
  chmodDir : GoError := none
  /-- value of `os.IsNotExist(err)` for `os.Stat(convertedFile)` -/
  statNotExist : Bool := false
  /-- result of `os.Chmod(convertedFile, 0644)` -/
  chmodFile : GoError := none
  /-- the path `filepath.Join(convertedDir, baseName+".html")` for a filename -/
  convertedFile : String → String := fun _ => ""
  /-- the `s.db.UpdateJob` of this run reports an error -/
  updateFails : Bool := false
  /-- the final `s.db.GetJob` reports an error -/
  getUpdatedFails : Bool := false
  /-- write failures of the first broadcast -/
  wsFailsInitial : Nat → Bool := fun _ => false
  /-- write failures of the last broadcast -/
  wsFailsFinal : Nat → Bool := fun _ => false

/-- Go `Server.updateJobStatus` (main.go 633-651). -/
def updateJobStatus (s : Server) (now : Nat) (updateFails : Bool) (wsFails : Nat → Bool)
    (jobID status errorMsg : String) : Server :=
  let job : ConvertJob := { ID := jobID, Status := status, Error := errorMsg, UpdatedAt := now }
  let r := s.db.UpdateJob job updateFails
  -- an error of UpdateJob is logged, nothing else
  let s1 : Server := { s with db := r.1, trace := s.trace ++ [Action.dbUpdate job r.2] }
  broadcastJobUpdate s1 wsFails job

/-- The condition of main.go 384: the invocation failed. -/
def conversionFailed (err : GoError) (outputStr : String) : Bool :=
  err.isSome || stringsContains outputStr "Error:" || stringsContains outputStr "failed:"

/-- The `errorMsg` computed at main.go 385-396. -/
def conversionErrorMsg (outputStr : String) : String :=
  if stringsContains outputStr "Error:" then
    match stringsIndex outputStr "Error:" with
    | some idx =>
      let errorPart := sliceFrom outputStr idx
      match stringsIndex errorPart "\n" with
      | some newLineIdx => sliceTo errorPart newLineIdx
      | none => errorPart
    | none => "Conversion failed"
  else "Conversion failed"

/-- After `os.MkdirAll` below `<tempDir>/<jobID>` succeeded the job directory exists. -/
def addDir (s : Server) (jobID : String) : Server :=
  if jobID ∈ s.dirs then s else { s with dirs := s.dirs ++ [jobID] }

/-- Go `Server.processConversion` (main.go 329-479). The argument `filename` only
enters the paths, which the path library computes (`io.convertedFile`). -/
def processConversion (s : Server) (io : ConvIO) (jobID : String) (filename : String) : Server :=
  let fail (s : Server) (errorMsg : String) : Server :=
    updateJobStatus s io.now io.updateFails io.wsFailsFinal jobID StatusFailed errorMsg
  -- Get initial job state to broadcast
  let s0 := match s.db.GetJob jobID io.getInitialFails with
    | some initialJob => broadcastJobUpdate s io.wsFailsInitial initialJob
    | none => s
  -- Create directories
  match io.mkdirOriginal with
  | some err => fail s0 err.Error
  | none =>
  let s1 := addDir s0 jobID
  match io.mkdirConverted with
  | some err => fail s1 err.Error
  | none =>
  -- Save original file
  match io.saveFile with
  | some err => fail s1 err.Error
  | none =>
  -- Run conversion
  if conversionFailed io.cmdErr io.output then
    fail s1 (conversionErrorMsg io.output)
  else
  match io.chmodDir with
  | some _ => fail s1 "Failed to set directory permissions"
  | none =>
  if io.statNotExist then fail s1 "Converted file not found after conversion"
  else
  match io.chmodFile with
  | some _ => fail s1 "Failed to set file permissions"
  | none =>
  -- Update job with converted file path
  let job : ConvertJob :=
    { ID := jobID, Status := StatusComplete, ConvertedFile := io.convertedFile filename,
      UpdatedAt := io.now }
  let r := s1.db.UpdateJob job io.updateFails
  let s2 : Server := { s1 with db := r.1, trace := s1.trace ++ [Action.dbUpdate job r.2] }
  if !r.2 then s2
  else
  -- Get the updated job to broadcast
  match s2.db.GetJob jobID io.getUpdatedFails with
  | none => s2
  | some updatedJob => broadcastJobUpdate s2 io.wsFailsFinal updatedJob

/-! ## The upload handler (main.go 239-327) -/

/-- The loop of `filepath.Ext`, scanning from the end: the suffix that starts at the last
dot of the last path element, empty when that element has no dot. The first
argument is the path reversed, the second the characters already passed. -/
def extRev : List Char → List Char → List Char
  | [], _ => []
  | c :: rest, acc =>
    if c = '/' then [] else if c = '.' then c :: acc else extRev rest (c :: acc)

/-- Go `filepath.Ext(path)`. -/
def filepathExt (path : String) : String := ⟨extRev path.data.reverse []⟩

/-- Go `strings.ToLower` on the letters A-Z; other characters are kept. (Go also
maps upper-case letters outside ASCII, none of them to a letter of an allowed
extension, so `allowedExtensions` gives the same answer.) -/
def stringsToLower (s : String) : String := ⟨s.data.map Char.toLower⟩

/-- The map `allowedExtensions` (main.go 243-247). -/
def allowedExtensions (ext : String) : Bool :=
  ext = ".docx" || ext = ".xlsx" || ext = ".odt"

/-- The map `allowedMimeTypes` (main.go 272-276). -/
def allowedMimeTypes (contentType : String) : Bool :=
  contentType = "application/vnd.openxmlformats-officedocument.wordprocessingml.document"
  || contentType = "application/vnd.openxmlformats-officedocument.spreadsheetml.sheet"
  || contentType = "application/vnd.oasis.opendocument.text"

/-- The multipart form of a POST /converts request. -/
structure UploadRequest where
  /-- whether `r.FormFile("file")` returns an error -/
  formFileErr : Bool := false
  /-- value of `header.Filename` -/
  Filename : String
  /-- value of `header.Header.Get("Content-Type")` -/
  ContentType : String

/-- What the environment gives one call of `handleCreateConvert`. -/
structure CreateIO where
  /-- value of `uuid.New().String()` -/
  uuid : String
  /-- the two values of `time.Now()` -/
  createdAt : Nat := 0
  updatedAt : Nat := 0
  /-- whether `s.db.CreateJob` reports a driver error -/
  createFails : Bool := false
  wsFails : Nat → Bool := fun _ => false

/-- The HTTP status written, and the arguments `(jobID, filename)` of the
goroutine `go s.processConversion(...)` when one is started. -/
structure CreateResult where
  server : Server
  status : Nat
  spawned : Option (String × String)

/-- Go `Server.handleCreateConvert` (main.go 239-327). -/
def handleCreateConvert (s : Server) (io : CreateIO) (r : UploadRequest) : CreateResult :=
  if r.formFileErr then ⟨s, 400, none⟩
  else
  -- Validate file extension
  let ext := stringsToLower (filepathExt r.Filename)
  if !allowedExtensions ext then ⟨s, 400, none⟩
  else
  -- Validate Content-Type
  if !allowedMimeTypes r.ContentType then ⟨s, 400, none⟩
  else
  let jobID := io.uuid
  let job : ConvertJob :=
    { ID := jobID, OriginalFile := r.Filename, Status := StatusPending,
      CreatedAt := io.createdAt, UpdatedAt := io.updatedAt }
  let c := s.db.CreateJob job io.createFails
  let s1 : Server := { s with db := c.1, trace := s.trace ++ [Action.dbCreate job c.2] }
  if !c.2 then ⟨s1, 500, none⟩
  else
  -- Broadcast the initial job creation
  let s2 := broadcastJobUpdate s1 io.wsFails job
  -- Start processing in a goroutine
  ⟨s2, 202, some (jobID, r.Filename)⟩

/-! ## The delete handler (main.go 528-577) -/

/-- What the environment gives one call of `handleDeleteConvert`. -/
structure DeleteIO where
  getFails : Bool := false
  /-- whether `os.RemoveAll(jobDir)` returns an error -/
  removeFails : Bool := false
  deleteFails : Bool := false
  wsFails : Nat → Bool := fun _ => false

/-- The call `os.RemoveAll(<tempDir>/<id>)`: on success the directory is gone; `dirs`
is kept as it is when the call fails. The call is recorded in the trace. -/
def removeAll (s : Server) (id : String) (fails : Bool) : Server :=
  if fails then { s with trace := s.trace ++ [Action.removeAll id false] }
  else { s with dirs := s.dirs.filter (fun d => d != id),
                trace := s.trace ++ [Action.removeAll id true] }

/-- The call `s.db.DeleteJob(id)` on the server, recorded in the trace; the second
component says whether it succeeded. -/
def deleteJob (s : Server) (id : String) (fails : Bool) : Server × Bool :=
  let d := s.db.DeleteJob id fails
  ({ s with db := d.1, trace := s.trace ++ [Action.dbDelete id d.2] }, d.2)

/-- Go `Server.handleDeleteConvert` (main.go 528-577); the result is the server
and the HTTP status. -/
def handleDeleteConvert (s : Server) (io : DeleteIO) (id : String) : Server × Nat :=
  match s.db.GetJob id io.getFails with
  | none => (s, 404)
  | some job =>
  -- Only allow deletion of completed or failed jobs
  if job.Status != StatusComplete && job.Status != StatusFailed then (s, 403)
  else
  -- Delete job files; continue with DB deletion even if files deletion fails
  let s1 := removeAll s job.ID io.removeFails
  -- Delete from database
  let d := deleteJob s1 id io.deleteFails
  if !d.2 then (d.1, 500)
  else
  -- Broadcast deletion via websocket
  (broadcastJobDelete d.1 io.wsFails id, 204)

/-! ## The retention sweeper (main.go 705-768) -/

/-- What the environment gives one tick of the cleanup loop; failures are
given per job id. -/
structure SweepIO where
  /-- the offset from UTC of the local zone of the server at each instant -/
  zone : Nat → Int := fun _ => 0
  getOldFails : Bool := false
  removeFails : String → Bool := fun _ => false
  deleteFails : String → Bool := fun _ => false

/-- The loop `for _, job := range jobs` (main.go 741-765). -/
def sweepLoop (io : SweepIO) : List ConvertJob → Server → Server
  | [], s => s
  | job :: jobs, s =>
    -- Delete files
    if io.removeFails job.ID then sweepLoop io jobs (removeAll s job.ID true)
    else
    let s1 := removeAll s job.ID false
    -- Delete from database; on an error the loop continues as well
    sweepLoop io jobs (deleteJob s1 job.ID (io.deleteFails job.ID)).1

/-- One `case <-ticker.C` of `Server.startCleanupJob` (main.go 733-766);
`cutoffTime` is `time.Now().Add(-retentionPeriod)`. -/
def cleanupTick (s : Server) (io : SweepIO) (cutoffTime : Nat) : Server :=
  match s.db.GetOldJobs io.zone cutoffTime io.getOldFails with
  | none => s
  | some jobs => sweepLoop io jobs s

/-! ## Notions used in the statements -/

/-- The text `msg` is the line of `output` that starts at the first
occurrence of `marker`: it begins with the marker, no occurrence of the marker
starts before it, it holds no line break, and it is followed by a line break
or by the end of the output. -/
def IsFirstMarkerLine (marker output msg : List Char) : Prop :=
  ∃ pre rest, output = pre ++ msg ++ rest ∧ marker <+: msg ∧
    (∀ k, k < pre.length → ¬ marker <+: output.drop k) ∧
    '\n' ∉ msg ∧ (rest = [] ∨ ∃ t, rest = '\n' :: t)

/-- The actions of the first broadcast of a run. -/
def initialActions (s : Server) (io : ConvIO) (jobID : String) : List Action :=
  match s.db.GetJob jobID io.getInitialFails with
  | some j =>
    Action.broadcast (Message.jobUpdate j)
      :: writeAll io.wsFailsInitial (Message.jobUpdate j) s.clients
  | none => []

/-- The job value built by `updateJobStatus`. -/
def statusJob (jobID status errorMsg : String) (now : Nat) : ConvertJob :=
  { ID := jobID, Status := status, Error := errorMsg, UpdatedAt := now }

/-- The steps before the converter all succeed: the converter is invoked. -/
def Reached (io : ConvIO) : Prop :=
  io.mkdirOriginal = none ∧ io.mkdirConverted = none ∧ io.saveFile = none

/-- The steps after the converter all succeed. -/
def Finished (io : ConvIO) : Prop :=
  io.chmodDir = none ∧ io.statNotExist = false ∧ io.chmodFile = none

/-- The text `msg` is the diagnostic of the first step of the run that fails:
the error text of a directory creation or of saving the upload, the text
extracted from the converter output, or the fixed message of the permission
change or of the artifact check that fails. -/
def FailText (io : ConvIO) (msg : String) : Prop :=
  (∃ e, io.mkdirOriginal = some e ∧ msg = e.Error) ∨
  (io.mkdirOriginal = none ∧ ∃ e, io.mkdirConverted = some e ∧ msg = e.Error) ∨
  (io.mkdirOriginal = none ∧ io.mkdirConverted = none ∧
    ∃ e, io.saveFile = some e ∧ msg = e.Error) ∨
  (Reached io ∧ conversionFailed io.cmdErr io.output = true ∧
    msg = conversionErrorMsg io.output) ∨
  (Reached io ∧ conversionFailed io.cmdErr io.output = false ∧ io.chmodDir ≠ none ∧
    msg = "Failed to set directory permissions") ∨
  (Reached io ∧ conversionFailed io.cmdErr io.output = false ∧ io.chmodDir = none ∧
    io.statNotExist = true ∧ msg = "Converted file not found after conversion") ∨
  (Reached io ∧ conversionFailed io.cmdErr io.output = false ∧ io.chmodDir = none ∧
    io.statNotExist = false ∧ io.chmodFile ≠ none ∧ msg = "Failed to set file permissions")

/-- The state before the single store write of a run. -/
def Prepared (s : Server) (io : ConvIO) (jobID : String) (s1 : Server) : Prop :=
  s1.db = s.db ∧ s1.clients = s.clients ∧ s1.trace = s.trace ++ initialActions s io jobID

/-- The last three steps of a successful run. -/
def completeRun (s1 : Server) (io : ConvIO) (jobID filename : String) : Server :=
  let job : ConvertJob :=
    { ID := jobID, Status := StatusComplete, ConvertedFile := io.convertedFile filename,
      UpdatedAt := io.now }
  let r := s1.db.UpdateJob job io.updateFails
  let s2 : Server := { s1 with db := r.1, trace := s1.trace ++ [Action.dbUpdate job r.2] }
  if !r.2 then s2
  else
  match s2.db.GetJob jobID io.getUpdatedFails with
  | none => s2
  | some updatedJob => broadcastJobUpdate s2 io.wsFailsFinal updatedJob

/-- The action is a write to the job store. -/
def isStoreWrite : Action → Bool
  | Action.dbCreate _ _ => true
  | Action.dbUpdate _ _ => true
  | Action.dbDelete _ _ => true
  | _ => false

/-- How one row may differ after a run for `jobID`: only the row of that job
changes, never its id, file name or creation time, and a changed status is a
terminal one. -/
def RowStep (jobID : String) (r r' : ConvertJob) : Prop :=
  r'.ID = r.ID ∧ r'.OriginalFile = r.OriginalFile ∧ r'.CreatedAt = r.CreatedAt ∧
  (r.ID ≠ jobID → r' = r) ∧
  (r'.Status = r.Status ∨ r'.Status = StatusFailed ∨ r'.Status = StatusComplete)

/-- A server holding one job that was just accepted, with one observer. -/
def pendingServer : Server :=
  { db := [{ ID := "j1", OriginalFile := "a.docx", Status := StatusPending,
             CreatedAt := 5, UpdatedAt := 5 }],
    clients := [1] }

/-- The job value written by the last store call of a successful run. -/
def completeJob (io : ConvIO) (jobID filename : String) : ConvertJob :=
  { ID := jobID, Status := StatusComplete, ConvertedFile := io.convertedFile filename,
    UpdatedAt := io.now }

/-- The actions after the store write of a successful run. -/
def completeTail (s1 : Server) (io : ConvIO) (jobID filename : String) : List Action :=
  if (s1.db.UpdateJob (completeJob io jobID filename) io.updateFails).2 then
    match DB.GetJob (s1.db.UpdateJob (completeJob io jobID filename) io.updateFails).1 jobID
        io.getUpdatedFails with
    | none => []
    | some u => Action.broadcast (Message.jobUpdate u)
        :: writeAll io.wsFailsFinal (Message.jobUpdate u) s1.clients
  else []

/-- The run from `s` to `s'` made exactly one store write, the call
`UpdateJob(job)` (failing as `uf` says), and the store is the result of it. -/
def WritesJob (s s' : Server) (uf : Bool) (job : ConvertJob) : Prop :=
  s'.db = (s.db.UpdateJob job uf).1 ∧
  ∃ pre post, s'.trace = s.trace ++ pre ++ Action.dbUpdate job (!uf) :: post ∧
    ∀ a ∈ pre ++ post, isStoreWrite a = false

/-- The converter wrote `marker` somewhere in its output. -/
def HasMarker (marker output : String) : Prop := marker.data <:+: output.data

instance (io : ConvIO) : Decidable (Reached io) := by unfold Reached; infer_instance

instance (io : ConvIO) : Decidable (Finished io) := by unfold Finished; infer_instance

/-- The environment of the scenario: every step succeeds, the converter exits
zero and prints an error line. -/
def errorLineIO : ConvIO :=
  { now := 9, output := "convert x\nError: conversion failed\nmore" }

/-- The converter exits zero and prints only the marker `failed:`. -/
def failedMarkerIO : ConvIO :=
  { now := 9, output := "convert /tmp/a.docx failed: no export filter" }

/-- The directory creation fails and so does the store write that follows. -/
def uncommittedIO : ConvIO :=
  { now := 9,
    mkdirOriginal :=
      some (OsError.pathError "mkdir" "/tmp/converter/j1/original" "permission denied"),
    updateFails := true }

/-- The directory creation fails; the store and the observers work. -/
def mkdirFailsIO : ConvIO :=
  { now := 9,
    mkdirOriginal :=
      some (OsError.pathError "mkdir" "/tmp/converter/j1/original" "permission denied") }

/-- The stored row of the job of `pendingServer`. -/
def pendingRow : ConvertJob :=
  { ID := "j1", OriginalFile := "a.docx", Status := StatusPending, CreatedAt := 5,
    UpdatedAt := 5 }

/-- The job value that `updateJobStatus` builds when the directory creation
fails at time 9. -/
def failedPayload : ConvertJob :=
  { ID := "j1", Status := StatusFailed,
    Error := "mkdir /tmp/converter/j1/original: permission denied", UpdatedAt := 9 }

/-- The handler `handleCreateConvert` followed by the run of the goroutine it starts
(`go s.processConversion(jobID, file, header.Filename)`), nothing else
happening in between. -/
def createAndRun (s : Server) (cio : CreateIO) (r : UploadRequest) (io : ConvIO) : Server :=
  match (handleCreateConvert s cio r).spawned with
  | some (jobID, filename) =>
    processConversion (handleCreateConvert s cio r).server io jobID filename
  | none => (handleCreateConvert s cio r).server

/-- The messages that reached observer `c`: its successful writes, in order. -/
def received (c : Nat) (t : List Action) : List Message :=
  t.filterMap (fun a => match a with
    | Action.wsWrite c' m true => if c' = c then some m else none
    | _ => none)

/-- The messages handed to a broadcast function, in order. -/
def broadcasts (t : List Action) : List Message :=
  t.filterMap (fun a => match a with
    | Action.broadcast m => some m
    | _ => none)

/-- The upload passes the checks of `handleCreateConvert`. -/
def Accepted (r : UploadRequest) : Prop :=
  r.formFileErr = false ∧ allowedExtensions (stringsToLower (filepathExt r.Filename)) = true ∧
  allowedMimeTypes r.ContentType = true

instance (r : UploadRequest) : Decidable (Accepted r) := by unfold Accepted; infer_instance

/-- Every step of the run succeeds and the converter reports no failure. -/
def AllSucceed (io : ConvIO) : Prop :=
  io.getInitialFails = false ∧ Reached io ∧ conversionFailed io.cmdErr io.output = false ∧
  Finished io ∧ io.updateFails = false ∧ io.getUpdatedFails = false

instance (io : ConvIO) : Decidable (AllSucceed io) := by unfold AllSucceed; infer_instance

/-- The job that `handleCreateConvert` creates. -/
def createdJob (cio : CreateIO) (r : UploadRequest) : ConvertJob :=
  { ID := cio.uuid, OriginalFile := r.Filename, Status := StatusPending,
    CreatedAt := cio.createdAt, UpdatedAt := cio.updatedAt }

/-- The row of that job after the successful run. -/
def finishedJob (cio : CreateIO) (r : UploadRequest) (io : ConvIO) : ConvertJob :=
  { ID := cio.uuid, OriginalFile := r.Filename, Status := StatusComplete,
    ConvertedFile := io.convertedFile r.Filename, Error := "",
    CreatedAt := cio.createdAt, UpdatedAt := io.now }

/-- An accepted upload of report.docx. -/
def reportUpload : UploadRequest :=
  { Filename := "report.docx",
    ContentType := "application/vnd.openxmlformats-officedocument.wordprocessingml.document" }

/-- The environment of the accepted upload. -/
def reportCreateIO : CreateIO := { uuid := "j2", createdAt := 20, updatedAt := 20 }

/-- A run in which everything succeeds. -/
def reportRunIO : ConvIO :=
  { now := 21, output := "convert report.docx -> report.html",
    convertedFile := fun _ => "/tmp/converter/j2/converted/report.html" }

/-- The actions of an accepted upload followed by a successful run. -/
def createAndRunActions (s : Server) (cio : CreateIO) (r : UploadRequest) (io : ConvIO) :
    List Action :=
  Action.dbCreate (createdJob cio r) true ::
  Action.broadcast (Message.jobUpdate (createdJob cio r)) ::
  writeAll cio.wsFails (Message.jobUpdate (createdJob cio r)) s.clients ++
  Action.broadcast (Message.jobUpdate (createdJob cio r)) ::
  writeAll io.wsFailsInitial (Message.jobUpdate (createdJob cio r)) s.clients ++
  Action.dbUpdate (completeJob io cio.uuid r.Filename) true ::
  Action.broadcast (Message.jobUpdate (finishedJob cio r io)) ::
  writeAll io.wsFailsFinal (Message.jobUpdate (finishedJob cio r io)) s.clients

/-- The status carried by a job_update, the empty string for a job_delete. -/
def messageStatus : Message → String
  | Message.jobUpdate j => j.Status
  | Message.jobDelete _ => ""

/-- A server with no job and one observer. -/
def emptyServer : Server := { clients := [1] }

/-- What the loop of the sweeper does for one job, whatever happens to the
other jobs: the directory removal, and the store deletion only after a
successful removal. -/
def jobActions (io : SweepIO) (job : ConvertJob) : List Action :=
  if io.removeFails job.ID then [Action.removeAll job.ID false]
  else [Action.removeAll job.ID true, Action.dbDelete job.ID (!io.deleteFails job.ID)]

/-- The actions of one sweep over `jobs`: those of each job, in order. -/
def sweepActions (io : SweepIO) : List ConvertJob → List Action
  | [] => []
  | job :: jobs => jobActions io job ++ sweepActions io jobs

/-- The sweep removes the row: both steps succeed for its id. -/
def swept (io : SweepIO) (id : String) : Bool :=
  !io.removeFails id && !io.deleteFails id

/-- The ids whose directory removal was attempted, in order. -/
def removalsAttempted (t : List Action) : List String :=
  t.filterMap (fun a => match a with
    | Action.removeAll id _ => some id
    | _ => none)

/-- The row is selected by `GetOldJobs(cutoff)`: the stored text of its
created_at is below the text of the cutoff. -/
def isOld (zone : Nat → Int) (cutoff : Nat) (r : ConvertJob) : Bool :=
  sqlLt (sqlStamp zone r.CreatedAt) (sqlStamp zone cutoff)

/-- The rows that `GetOldJobs(cutoff)` returns. -/
def oldJobs (db : DB) (zone : Nat → Int) (cutoff : Nat) : List ConvertJob :=
  db.filter (isOld zone cutoff)

/-- A server holding one failed job with its working directory, and one
observer. -/
def failedServer : Server :=
  { db := [{ ID := "j1", OriginalFile := "a.docx", Status := StatusFailed,
             Error := "Conversion failed", CreatedAt := 5, UpdatedAt := 6 }],
    clients := [1], dirs := ["j1"] }

/-- The stored row of the job of `failedServer`. -/
def failedRow : ConvertJob :=
  { ID := "j1", OriginalFile := "a.docx", Status := StatusFailed,
    Error := "Conversion failed", CreatedAt := 5, UpdatedAt := 6 }

/-- The pending job of `pendingServer` with its working directory. -/
def runningServer : Server :=
  { db := [pendingRow], clients := [1], dirs := ["j1"] }

/-- An upload named a.docx that declares the content type of an OpenDocument
text. -/
def mismatchedUpload : UploadRequest :=
  { Filename := "a.docx", ContentType := "application/vnd.oasis.opendocument.text" }

/-- An upload with extension .pdf. -/
def pdfUpload : UploadRequest :=
  { Filename := "report.pdf", ContentType := "application/pdf" }

/-- Every step of the run succeeds except the final store write. -/
def finalWriteFailsIO : ConvIO :=
  { now := 9, output := "convert a.docx -> a.html",
    convertedFile := fun _ => "/tmp/converter/j1/converted/a.html", updateFails := true }

/-- The permission change on the converted file fails; the store works. -/
def chmodFailsIO : ConvIO :=
  { now := 9, output := "convert a.docx -> a.html",
    chmodFile := some "chmod /tmp/converter/j1/converted/a.html: operation not permitted" }

/-- The websocket writes attempted, in order: observer, message, and whether
the write succeeded. -/
def writesAttempted (t : List Action) : List (Nat × Message × Bool) :=
  t.filterMap (fun a => match a with
    | Action.wsWrite c m ok => some (c, m, ok)
    | _ => none)

/-- The writes attempted to observer `c`, in order: message and success. -/
def writesTo (c : Nat) (t : List Action) : List (Message × Bool) :=
  t.filterMap (fun a => match a with
    | Action.wsWrite c' m ok => if c' = c then some (m, ok) else none
    | _ => none)

/-- A server with three observers. -/
def threeObservers : Server := { clients := [1, 2, 3] }

/-- The write to observer 2 fails. -/
def secondFails : Nat → Bool := fun c => c == 2

/-- The run for `jobID` fails with the diagnostic `msg`: its single store
write is `UpdateJob` with status failed and error `msg`, and unless that
write fails every stored row of the job has status failed and error `msg`
after the run. -/
def FailsWith (s : Server) (io : ConvIO) (jobID filename msg : String) : Prop :=
  WritesJob s (processConversion s io jobID filename) io.updateFails
    (statusJob jobID StatusFailed msg io.now) ∧
  (io.updateFails = false →
    ∀ r ∈ (processConversion s io jobID filename).db, r.ID = jobID →
      r.Status = StatusFailed ∧ r.Error = msg)

/-- The offset of the zone Europe/Berlin around the end of summer time 2026:
two hours east of UTC before 2026-10-25 01:00:00 UTC (Unix time 1792890000),
one hour from then on. Instants are counted in seconds. -/
def berlinZone : Nat → Int := fun t => if t < 1792890000 then 7200 else 3600

/-- The instant 2026-10-25 00:50:00 UTC. -/
def berlinCutoff : Nat := 1792889400

/-- The instant 2026-10-25 01:20:00 UTC, 30 minutes later. -/
def berlinNextCutoff : Nat := 1792891200

/-- A job created at 2026-10-25 00:30:00 UTC. -/
def berlinJobA : ConvertJob :=
  { ID := "a", OriginalFile := "a.docx", ConvertedFile := "/tmp/converter/a/converted/a.html",
    Status := StatusComplete, CreatedAt := 1792888200, UpdatedAt := 1792888260 }

/-- A job created at 2026-10-25 01:10:00 UTC. -/
def berlinJobB : ConvertJob :=
  { ID := "b", OriginalFile := "b.docx", ConvertedFile := "/tmp/converter/b/converted/b.html",
    Status := StatusComplete, CreatedAt := 1792890600, UpdatedAt := 1792890660 }

/-- A job created at 2026-10-25 12:00:00 UTC. -/
def berlinJobC : ConvertJob :=
  { ID := "c", OriginalFile := "c.odt", ConvertedFile := "/tmp/converter/c/converted/c.html",
    Status := StatusComplete, CreatedAt := 1792929600, UpdatedAt := 1792929660 }

/-- A job created at 2026-10-25 00:40:00 UTC. -/
def berlinJobR : ConvertJob :=
  { ID := "r", OriginalFile := "r.xlsx", ConvertedFile := "/tmp/converter/r/converted/r.html",
    Status := StatusComplete, CreatedAt := 1792888800, UpdatedAt := 1792888860 }

/-- The store and the directories of the three jobs a, b and c. -/
def berlinServer : Server :=
  { db := [berlinJobA, berlinJobB, berlinJobC], dirs := ["a", "b", "c"] }

/-- The store and the directory of job r. -/
def berlinRetryServer : Server := { db := [berlinJobR], dirs := ["r"] }

/-- The store deletion of job r fails. -/
def berlinRetryIO : SweepIO := { zone := berlinZone, deleteFails := fun id => id == "r" }

/-- The requests and events that change the state of the server: an upload
(`POST /converts`), the run of the goroutine that an upload started, a delete
request, a tick of the sweeper, and an observer connecting or disconnecting.
`updateJobStatus` is not among them, it is called inside `processConversion`
only. -/
inductive Op where
  | create (io : CreateIO) (r : UploadRequest)
  | run (io : ConvIO) (jobID filename : String)
  | delete (io : DeleteIO) (id : String)
  | sweep (io : SweepIO) (cutoffTime : Nat)
  | register (c : Nat)
  | unregister (c : Nat)

/-- The server with its goroutines. -/
structure Sys where
  server : Server
  /-- the arguments of the goroutines `go s.processConversion(jobID, file,
  filename)` that were started and have not run yet -/
  runs : List (String × String)
  /-- the identifiers of the rows found at start and those that `uuid.New()`
  has handed out since -/
  issued : List String

/-- The server at start: the rows of the database file, no goroutine. -/
def Sys.start (s : Server) : Sys :=
  { server := s, runs := [], issued := s.db.map (fun r => r.ID) }

/-- What can happen in a state: `uuid.New()` hands out an identifier that was
not handed out before, and a run is the run of a goroutine that was started
(`processConversion` has the single call site main.go 322). -/
def Sys.enabled (σ : Sys) : Op → Bool
  | Op.create io _ => !σ.issued.contains io.uuid
  | Op.run _ jobID filename => σ.runs.contains (jobID, filename)
  | _ => true

/-- One operation. A run is taken as one step: its only store write is one
`UpdateJob`, so for the store it does not matter how its other steps
interleave with the other operations. -/
def Sys.step (σ : Sys) : Op → Sys
  | Op.create io r =>
    { server := (handleCreateConvert σ.server io r).server,
      runs := σ.runs ++ (handleCreateConvert σ.server io r).spawned.toList,
      issued := io.uuid :: σ.issued }
  | Op.run io jobID filename =>
    { σ with server := processConversion σ.server io jobID filename,
             runs := σ.runs.erase (jobID, filename) }
  | Op.delete io id => { σ with server := (handleDeleteConvert σ.server io id).1 }
  | Op.sweep io cutoffTime => { σ with server := cleanupTick σ.server io cutoffTime }
  | Op.register c =>
    { σ with server := { σ.server with clients := σ.server.clients ++ [c] } }
  | Op.unregister c =>
    { σ with server := { σ.server with clients := σ.server.clients.filter (fun d => d != c) } }

/-- The state after a sequence of operations. -/
def Sys.exec : List Op → Sys → Sys
  | [], σ => σ
  | op :: ops, σ => Sys.exec ops (σ.step op)

/-- Each operation of the sequence can happen in the state it meets. -/
def Sys.possible : List Op → Sys → Bool
  | [], _ => true
  | op :: ops, σ => σ.enabled op && Sys.possible ops (σ.step op)

/-- The status is one of the two terminal ones. -/
def Terminal (r : ConvertJob) : Prop :=
  r.Status = StatusComplete ∨ r.Status = StatusFailed

/-- What holds in every state the server reaches: the rows and the waiting
runs carry identifiers that were handed out, no identifier is in two rows or
in two waiting runs, and no run is waiting for a row with a terminal status. -/
def Sys.Inv (σ : Sys) : Prop :=
  (∀ r ∈ σ.server.db, r.ID ∈ σ.issued) ∧
  (∀ p ∈ σ.runs, p.1 ∈ σ.issued) ∧
  (σ.runs.map (fun p => p.1)).Nodup ∧
  σ.server.db.WF ∧
  (∀ r ∈ σ.server.db, Terminal r → r.ID ∉ σ.runs.map (fun p => p.1))

/-- The row `r` is settled in `σ`: its identifier was handed out, no run is
waiting for it, and every row with its identifier is `r` itself. -/
def Sys.Settled (σ : Sys) (r : ConvertJob) : Prop :=
  r.ID ∈ σ.issued ∧ r.ID ∉ σ.runs.map (fun p => p.1) ∧
  ∀ row ∈ σ.server.db, row.ID = r.ID → row = r

/-- An upload is accepted and its run succeeds. -/
def uploadAndRun : List Op :=
  [Op.create reportCreateIO reportUpload, Op.run reportRunIO "j2" "report.docx"]

/-- What follows: a second upload whose run fails at the directory creation, a
tick of the sweeper, and an observer connecting. -/
def laterOps : List Op :=
  [Op.create { uuid := "j3", createdAt := 30, updatedAt := 30 } reportUpload,
   Op.run mkdirFailsIO "j3" "report.docx",
   Op.sweep { } 10,
   Op.register 7]

/-! ## Lemmas on the string functions -/

theorem indexFrom_some (sub : List Char) :
    ∀ (l : List Char) (i : Nat), indexFrom sub l = some i →
      i ≤ l.length ∧ sub <+: l.drop i ∧ ∀ k, k < i → ¬ sub <+: l.drop k := by
  intro l
  induction l with
  | nil =>
    intro i h
    simp only [indexFrom] at h
    split at h
    · rename_i hs
      cases h
      subst hs
      simp
    · cases h
  | cons c cs ih =>
    intro i h
    simp only [indexFrom] at h
    split at h
    · rename_i hp
      cases h
      refine ⟨Nat.zero_le _, ?_, fun k hk => absurd hk (Nat.not_lt_zero k)⟩
      simpa using List.isPrefixOf_iff_prefix.mp hp
    · rename_i hp
      cases hrec : indexFrom sub cs with
      | none => rw [hrec] at h; cases h
      | some j =>
        rw [hrec] at h
        simp only [Option.map_some', Option.some.injEq] at h
        subst h
        obtain ⟨h1, h2, h3⟩ := ih j hrec
        refine ⟨by simpa using h1, by simpa using h2, ?_⟩
        intro k hk
        cases k with
        | zero =>
          intro hpre
          exact hp (List.isPrefixOf_iff_prefix.mpr (by simpa using hpre))
        | succ k =>
          simpa using h3 k (by omega)

theorem indexFrom_none (sub : List Char) :
    ∀ (l : List Char), indexFrom sub l = none → ¬ sub <:+: l := by
  intro l
  induction l with
  | nil =>
    intro h
    simp only [indexFrom] at h
    split at h
    · cases h
    · rename_i hs
      intro hin
      exact hs (List.eq_nil_of_infix_nil hin)
  | cons c cs ih =>
    intro h
    simp only [indexFrom] at h
    split at h
    · cases h
    · rename_i hp
      cases hrec : indexFrom sub cs with
      | some j => rw [hrec] at h; cases h
      | none =>
        intro hin
        rcases List.infix_cons_iff.mp hin with h1 | h1
        · exact hp (List.isPrefixOf_iff_prefix.mpr h1)
        · exact ih hrec h1

theorem stringsContains_iff (s sub : String) :
    stringsContains s sub = true ↔ sub.data <:+: s.data := by
  unfold stringsContains stringsIndex
  constructor
  · intro h
    cases hi : indexFrom sub.data s.data with
    | none => rw [hi] at h; cases h
    | some i =>
      obtain ⟨_, h2, _⟩ := indexFrom_some _ _ _ hi
      exact List.IsInfix.trans h2.isInfix (List.drop_suffix i s.data).isInfix
  · intro h
    cases hi : indexFrom sub.data s.data with
    | none => exact absurd h (indexFrom_none _ _ hi)
    | some i => rfl


theorem singleton_infix_of_mem {c : Char} {l : List Char} (h : c ∈ l) : [c] <:+: l := by
  obtain ⟨s, t, rfl⟩ := List.append_of_mem h
  exact ⟨s, t, by simp⟩

theorem drop_cons_of_mem_take {x : Char} {l : List Char} {n : Nat} (h : x ∈ l.take n) :
    ∃ k, k < n ∧ [x] <+: l.drop k := by
  obtain ⟨k, hk, hx⟩ := List.mem_iff_getElem.mp h
  have hk2 : k < n ∧ k < l.length := by
    rw [List.length_take] at hk
    omega
  refine ⟨k, hk2.1, l.drop (k + 1), ?_⟩
  rw [List.getElem_take] at hx
  rw [← hx]
  simp

theorem conversionErrorMsg_of_contains (output : String)
    (h : stringsContains output "Error:" = true) :
    IsFirstMarkerLine "Error:".data output.data (conversionErrorMsg output).data := by
  unfold conversionErrorMsg
  rw [if_pos h]
  unfold stringsContains at h
  cases hi : stringsIndex output "Error:" with
  | none => rw [hi] at h; cases h
  | some idx =>
    obtain ⟨hle, hpre, hfirst⟩ := indexFrom_some _ _ _ hi
    simp only []
    cases hn : stringsIndex (sliceFrom output idx) "\n" with
    | none =>
      refine ⟨output.data.take idx, [], ?_, hpre, ?_, ?_, Or.inl rfl⟩
      · simp [sliceFrom]
      · intro k hk
        exact hfirst k (by rw [List.length_take] at hk; omega)
      · intro hmem
        exact indexFrom_none _ _ hn (singleton_infix_of_mem hmem)
    | some n =>
      obtain ⟨hnle, hnl, hnfirst⟩ := indexFrom_some _ _ _ hn
      simp only [sliceFrom] at hnle hnl hnfirst
      refine ⟨output.data.take idx, (output.data.drop idx).drop n, ?_, ?_, ?_, ?_, Or.inr ?_⟩
      · simp [sliceFrom, sliceTo]
      · simp only [sliceFrom, sliceTo]
        refine List.prefix_of_prefix_length_le hpre (List.take_prefix n _) ?_
        rw [List.length_take, Nat.min_eq_left hnle]
        by_contra hlt
        obtain ⟨t, ht⟩ := hpre
        obtain ⟨u, hu⟩ := hnl
        rw [← ht, List.drop_append_of_le_length (by simp at hlt ⊢; omega)] at hu
        have hlt6 : n < "Error:".data.length := by simp at hlt ⊢; omega
        rw [List.drop_eq_getElem_cons hlt6] at hu
        have hmem : '\n' ∈ "Error:".data := by
          have hc := (List.cons.inj hu).1
          rw [hc]
          exact List.getElem_mem hlt6
        exact absurd hmem (by decide)
      · intro k hk
        exact hfirst k (by rw [List.length_take] at hk; omega)
      · intro hmem
        simp only [sliceFrom, sliceTo] at hmem
        obtain ⟨k, hk, hx⟩ := drop_cons_of_mem_take hmem
        exact hnfirst k hk hx
      · obtain ⟨u, hu⟩ := hnl
        exact ⟨u, by simpa using hu.symm⟩

theorem conversionErrorMsg_of_not_contains (output : String)
    (h : stringsContains output "Error:" = false) :
    conversionErrorMsg output = "Conversion failed" := by
  unfold conversionErrorMsg
  simp [h]

/-! ## Lemmas on the lifecycle run -/

theorem addDir_db (s : Server) (j : String) : (addDir s j).db = s.db := by
  unfold addDir; split <;> rfl
theorem addDir_trace (s : Server) (j : String) : (addDir s j).trace = s.trace := by
  unfold addDir; split <;> rfl
theorem addDir_clients (s : Server) (j : String) : (addDir s j).clients = s.clients := by
  unfold addDir; split <;> rfl

theorem processConversion_cases (s : Server) (io : ConvIO) (jobID filename : String) :
    (∃ s1 msg, Prepared s io jobID s1 ∧ FailText io msg ∧
      processConversion s io jobID filename =
        updateJobStatus s1 io.now io.updateFails io.wsFailsFinal jobID StatusFailed msg) ∨
    (∃ s1, Prepared s io jobID s1 ∧ Reached io ∧
      conversionFailed io.cmdErr io.output = false ∧ Finished io ∧
      processConversion s io jobID filename = completeRun s1 io jobID filename) := by
  have h0 : Prepared s io jobID
      (match s.db.GetJob jobID io.getInitialFails with
        | some initialJob => broadcastJobUpdate s io.wsFailsInitial initialJob
        | none => s) := by
    unfold Prepared initialActions
    cases s.db.GetJob jobID io.getInitialFails <;> simp [broadcastJobUpdate]
  have h1 : Prepared s io jobID
      (addDir (match s.db.GetJob jobID io.getInitialFails with
        | some initialJob => broadcastJobUpdate s io.wsFailsInitial initialJob
        | none => s) jobID) := by
    obtain ⟨a, b, c⟩ := h0
    exact ⟨by rw [addDir_db, a], by rw [addDir_clients, b], by rw [addDir_trace, c]⟩
  unfold processConversion
  simp only []
  split
  · rename_i err h
    exact Or.inl ⟨_, err.Error, h0, Or.inl ⟨err, h, rfl⟩, rfl⟩
  rename_i hm1
  split
  · rename_i err h
    exact Or.inl ⟨_, err.Error, h1, Or.inr (Or.inl ⟨hm1, err, h, rfl⟩), rfl⟩
  rename_i hm2
  split
  · rename_i err h
    exact Or.inl ⟨_, err.Error, h1, Or.inr (Or.inr (Or.inl ⟨hm1, hm2, err, h, rfl⟩)), rfl⟩
  rename_i hsv
  have hr : Reached io := ⟨hm1, hm2, hsv⟩
  split
  · rename_i h
    exact Or.inl ⟨_, _, h1, Or.inr (Or.inr (Or.inr (Or.inl ⟨hr, h, rfl⟩))), rfl⟩
  rename_i hc
  have hc2 : conversionFailed io.cmdErr io.output = false := by simpa using hc
  split
  · rename_i e h
    refine Or.inl ⟨_, _, h1, Or.inr (Or.inr (Or.inr (Or.inr (Or.inl
      ⟨hr, hc2, ?_, rfl⟩)))), rfl⟩
    rw [h]
    exact Option.some_ne_none e
  rename_i hcd
  split
  · rename_i h
    exact Or.inl ⟨_, _, h1, Or.inr (Or.inr (Or.inr (Or.inr (Or.inr (Or.inl
      ⟨hr, hc2, hcd, h, rfl⟩))))), rfl⟩
  rename_i hst
  have hst2 : io.statNotExist = false := by simpa using hst
  split
  · rename_i e h
    refine Or.inl ⟨_, _, h1, Or.inr (Or.inr (Or.inr (Or.inr (Or.inr (Or.inr
      ⟨hr, hc2, hcd, hst2, ?_, rfl⟩))))), rfl⟩
    rw [h]
    exact Option.some_ne_none e
  · rename_i hcf
    exact Or.inr ⟨_, h1, hr, hc2, ⟨hcd, hst2, hcf⟩, rfl⟩

theorem UpdateJob_rows (db : DB) (job : ConvertJob) (f : Bool) :
    List.Forall₂ (fun r r' => r'.ID = r.ID ∧ r'.OriginalFile = r.OriginalFile ∧
      r'.CreatedAt = r.CreatedAt ∧ (r.ID ≠ job.ID → r' = r) ∧
      (r'.Status = r.Status ∨ r'.Status = job.Status)) db (db.UpdateJob job f).1 := by
  unfold DB.UpdateJob
  cases f
  · simp only [Bool.false_eq_true, if_false]
    induction db with
    | nil => exact List.Forall₂.nil
    | cons r rs ih =>
      refine List.Forall₂.cons ?_ ih
      by_cases h : r.ID = job.ID
      · simp [h]
      · simp [h]
  · simp only [if_true]
    induction db with
    | nil => exact List.Forall₂.nil
    | cons r rs ih => exact List.Forall₂.cons (by simp) ih

theorem UpdateJob_rowStep (db : DB) (job : ConvertJob) (f : Bool)
    (hs : job.Status = StatusFailed ∨ job.Status = StatusComplete) :
    List.Forall₂ (RowStep job.ID) db (db.UpdateJob job f).1 := by
  refine List.Forall₂.imp ?_ (UpdateJob_rows db job f)
  intro r r' h
  obtain ⟨h1, h2, h3, h4, h5⟩ := h
  refine ⟨h1, h2, h3, h4, ?_⟩
  rcases h5 with h5 | h5
  · exact Or.inl h5
  · rcases hs with hs | hs
    · exact Or.inr (Or.inl (h5.trans hs))
    · exact Or.inr (Or.inr (h5.trans hs))

theorem isStoreWrite_writeAll (f : Nat → Bool) (m : Message) (cs : List Nat) :
    ∀ a ∈ writeAll f m cs, isStoreWrite a = false := by
  intro a ha
  simp only [writeAll, List.mem_map] at ha
  obtain ⟨c, _, rfl⟩ := ha
  rfl

theorem isStoreWrite_initialActions (s : Server) (io : ConvIO) (jobID : String) :
    ∀ a ∈ initialActions s io jobID, isStoreWrite a = false := by
  intro a ha
  unfold initialActions at ha
  split at ha
  · rcases List.mem_cons.mp ha with h | h
    · subst h; rfl
    · exact isStoreWrite_writeAll _ _ _ a h
  · cases ha

theorem updateJobStatus_db (s : Server) (now : Nat) (uf : Bool) (wf : Nat → Bool)
    (jobID status msg : String) :
    (updateJobStatus s now uf wf jobID status msg).db =
      (s.db.UpdateJob (statusJob jobID status msg now) uf).1 := rfl

theorem updateJobStatus_trace (s : Server) (now : Nat) (uf : Bool) (wf : Nat → Bool)
    (jobID status msg : String) :
    (updateJobStatus s now uf wf jobID status msg).trace =
      s.trace ++ Action.dbUpdate (statusJob jobID status msg now)
          (s.db.UpdateJob (statusJob jobID status msg now) uf).2 ::
        Action.broadcast (Message.jobUpdate (statusJob jobID status msg now)) ::
        writeAll wf (Message.jobUpdate (statusJob jobID status msg now)) s.clients := by
  simp [updateJobStatus, broadcastJobUpdate, statusJob]

theorem completeRun_db (s1 : Server) (io : ConvIO) (jobID filename : String) :
    (completeRun s1 io jobID filename).db =
      (s1.db.UpdateJob (completeJob io jobID filename) io.updateFails).1 := by
  unfold completeRun completeJob
  simp only []
  split
  · rfl
  · split <;> rfl

theorem completeRun_trace (s1 : Server) (io : ConvIO) (jobID filename : String) :
    (completeRun s1 io jobID filename).trace =
      s1.trace ++ Action.dbUpdate (completeJob io jobID filename)
          (s1.db.UpdateJob (completeJob io jobID filename) io.updateFails).2 ::
        completeTail s1 io jobID filename := by
  unfold completeRun completeTail completeJob
  simp only []
  split
  · rename_i h
    simp at h
    simp [h]
  · rename_i h
    simp at h
    simp only [h, if_true]
    split
    · rename_i h2
      simp [h2]
    · rename_i u h2
      simp [h2, broadcastJobUpdate]

theorem isStoreWrite_completeTail (s1 : Server) (io : ConvIO) (jobID filename : String) :
    ∀ a ∈ completeTail s1 io jobID filename, isStoreWrite a = false := by
  intro a ha
  unfold completeTail at ha
  split at ha
  · split at ha
    · cases ha
    · rcases List.mem_cons.mp ha with h | h
      · subst h; rfl
      · exact isStoreWrite_writeAll _ _ _ a h
  · cases ha

theorem sweepLoop_db_sublist (io : SweepIO) :
    ∀ (jobs : List ConvertJob) (s : Server), (sweepLoop io jobs s).db.Sublist s.db := by
  intro jobs
  induction jobs with
  | nil => intro s; exact List.Sublist.refl _
  | cons j js ih =>
    intro s
    unfold sweepLoop
    split
    · refine (ih _).trans ?_
      simp [removeAll]
    · refine (ih _).trans ?_
      simp only [deleteJob, removeAll, DB.DeleteJob]
      split
      · simp
      · simp

theorem deleteJob_removeAll_sublist (s : Server) (jid : String) (rf : Bool) (id : String)
    (df : Bool) : (deleteJob (removeAll s jid rf) id df).1.db.Sublist s.db := by
  simp only [deleteJob, removeAll, DB.DeleteJob]
  cases rf <;> cases df <;> simp

theorem handleDeleteConvert_db_sublist (s : Server) (io : DeleteIO) (id : String) :
    (handleDeleteConvert s io id).1.db.Sublist s.db := by
  unfold handleDeleteConvert
  split
  · exact List.Sublist.refl _
  · split
    · exact List.Sublist.refl _
    · simp only []
      split
      · exact deleteJob_removeAll_sublist _ _ _ _ _
      · exact deleteJob_removeAll_sublist _ _ _ _ _

theorem cleanupTick_db_sublist (s : Server) (io : SweepIO) (cutoff : Nat) :
    (cleanupTick s io cutoff).db.Sublist s.db := by
  unfold cleanupTick
  split
  · exact List.Sublist.refl _
  · exact sweepLoop_db_sublist io _ s

/-- A run of `processConversion` makes exactly one store write, an `UpdateJob`
for its own job id with status failed or complete; it changes at most the row
of that job, to a terminal status, and never an id, a file name or a creation
time. -/
theorem processConversion_single_write (s : Server) (io : ConvIO)
    (jobID filename : String) :
    (∃ pre job ok post,
        (processConversion s io jobID filename).trace =
          s.trace ++ pre ++ Action.dbUpdate job ok :: post ∧
        (∀ a ∈ pre ++ post, isStoreWrite a = false) ∧ job.ID = jobID ∧
        (job.Status = StatusFailed ∨ job.Status = StatusComplete)) ∧
    List.Forall₂ (RowStep jobID) s.db (processConversion s io jobID filename).db := by
  refine ⟨?_, ?_⟩
  · rcases processConversion_cases s io jobID filename with
      ⟨s1, msg, ⟨hdb, hcl, htr⟩, _, heq⟩ | ⟨s1, ⟨hdb, hcl, htr⟩, _, _, _, heq⟩
    · refine ⟨initialActions s io jobID, statusJob jobID StatusFailed msg io.now,
        (s1.db.UpdateJob (statusJob jobID StatusFailed msg io.now) io.updateFails).2,
        Action.broadcast (Message.jobUpdate (statusJob jobID StatusFailed msg io.now)) ::
          writeAll io.wsFailsFinal (Message.jobUpdate (statusJob jobID StatusFailed msg io.now))
            s1.clients, ?_, ?_, rfl, Or.inl rfl⟩
      · rw [heq, updateJobStatus_trace, htr]
      · intro a ha
        rcases List.mem_append.mp ha with h | h
        · exact isStoreWrite_initialActions _ _ _ a h
        · rcases List.mem_cons.mp h with h | h
          · subst h; rfl
          · exact isStoreWrite_writeAll _ _ _ a h
    · refine ⟨initialActions s io jobID, completeJob io jobID filename,
        (s1.db.UpdateJob (completeJob io jobID filename) io.updateFails).2,
        completeTail s1 io jobID filename, ?_, ?_, rfl, Or.inr rfl⟩
      · rw [heq, completeRun_trace, htr]
      · intro a ha
        rcases List.mem_append.mp ha with h | h
        · exact isStoreWrite_initialActions _ _ _ a h
        · exact isStoreWrite_completeTail _ _ _ _ a h
  · rcases processConversion_cases s io jobID filename with
      ⟨s1, msg, ⟨hdb, hcl, htr⟩, _, heq⟩ | ⟨s1, ⟨hdb, hcl, htr⟩, _, _, _, heq⟩
    · rw [heq, updateJobStatus_db, hdb]
      exact UpdateJob_rowStep s.db (statusJob jobID StatusFailed msg io.now) _ (Or.inl rfl)
    · rw [heq, completeRun_db, hdb]
      exact UpdateJob_rowStep s.db (completeJob io jobID filename) _ (Or.inr rfl)

theorem UpdateJob_snd (db : DB) (job : ConvertJob) (f : Bool) :
    (db.UpdateJob job f).2 = !f := by
  unfold DB.UpdateJob
  cases f <;> rfl

theorem WritesJob_unique {s s' : Server} {uf : Bool} {j1 j2 : ConvertJob}
    (h1 : WritesJob s s' uf j1) (h2 : WritesJob s s' uf j2) : j1 = j2 := by
  obtain ⟨_, pre1, post1, e1, n1⟩ := h1
  obtain ⟨_, pre2, post2, e2, n2⟩ := h2
  rw [e1, List.append_assoc, List.append_assoc] at e2
  have e := List.append_cancel_left e2
  have f1 : ∀ (pre post : List Action) (j : ConvertJob),
      (∀ a ∈ pre ++ post, isStoreWrite a = false) →
      (pre ++ Action.dbUpdate j (!uf) :: post).filter isStoreWrite = [Action.dbUpdate j (!uf)] := by
    intro pre post j hn
    have hp : pre.filter isStoreWrite = [] := by
      rw [List.filter_eq_nil_iff]
      intro a ha
      simp [hn a (List.mem_append_left _ ha)]
    have hq : post.filter isStoreWrite = [] := by
      rw [List.filter_eq_nil_iff]
      intro a ha
      simp [hn a (List.mem_append_right _ ha)]
    rw [List.filter_append, hp, List.filter_cons_of_pos (by rfl), hq]
    rfl
  have g := congrArg (List.filter isStoreWrite) e
  rw [f1 pre1 post1 j1 n1, f1 pre2 post2 j2 n2] at g
  simp only [List.cons.injEq, Action.dbUpdate.injEq, and_true] at g
  exact g

theorem updateJobStatus_writes {s s1 : Server} {io : ConvIO} {jobID : String}
    (hp : Prepared s io jobID s1) (status msg : String) :
    WritesJob s (updateJobStatus s1 io.now io.updateFails io.wsFailsFinal jobID status msg)
      io.updateFails (statusJob jobID status msg io.now) := by
  obtain ⟨hdb, _, htr⟩ := hp
  refine ⟨by rw [updateJobStatus_db, hdb], initialActions s io jobID,
    Action.broadcast (Message.jobUpdate (statusJob jobID status msg io.now)) ::
      writeAll io.wsFailsFinal (Message.jobUpdate (statusJob jobID status msg io.now))
        s1.clients, ?_, ?_⟩
  · rw [updateJobStatus_trace, htr, UpdateJob_snd]
  · intro a ha
    rcases List.mem_append.mp ha with h | h
    · exact isStoreWrite_initialActions _ _ _ a h
    · rcases List.mem_cons.mp h with h | h
      · subst h; rfl
      · exact isStoreWrite_writeAll _ _ _ a h

theorem completeRun_writes {s s1 : Server} {io : ConvIO} {jobID : String}
    (hp : Prepared s io jobID s1) (filename : String) :
    WritesJob s (completeRun s1 io jobID filename) io.updateFails
      (completeJob io jobID filename) := by
  obtain ⟨hdb, _, htr⟩ := hp
  refine ⟨by rw [completeRun_db, hdb], initialActions s io jobID,
    completeTail s1 io jobID filename, ?_, ?_⟩
  · rw [completeRun_trace, htr, UpdateJob_snd]
  · intro a ha
    rcases List.mem_append.mp ha with h | h
    · exact isStoreWrite_initialActions _ _ _ a h
    · exact isStoreWrite_completeTail _ _ _ _ a h

theorem processConversion_converter_failure (s : Server) (io : ConvIO) (jobID filename : String)
    (hr : Reached io) (hc : conversionFailed io.cmdErr io.output = true) :
    ∃ s1, Prepared s io jobID s1 ∧ processConversion s io jobID filename =
      updateJobStatus s1 io.now io.updateFails io.wsFailsFinal jobID StatusFailed
        (conversionErrorMsg io.output) := by
  rcases processConversion_cases s io jobID filename with
    ⟨s1, msg, hp, hft, heq⟩ | ⟨s1, hp, _, hnc, _, heq⟩
  · rcases hft with h | h | h | h | h | h | h
    · obtain ⟨e, h, _⟩ := h
      rw [hr.1] at h; cases h
    · obtain ⟨_, e, h, _⟩ := h
      rw [hr.2.1] at h; cases h
    · obtain ⟨_, _, e, h, _⟩ := h
      rw [hr.2.2] at h; cases h
    · exact ⟨s1, hp, by rw [heq, h.2.2]⟩
    · rw [hc] at h; cases h.2.1
    · rw [hc] at h; cases h.2.1
    · rw [hc] at h; cases h.2.1
  · rw [hc] at hnc; cases hnc

theorem processConversion_success (s : Server) (io : ConvIO) (jobID filename : String)
    (hr : Reached io) (hc : conversionFailed io.cmdErr io.output = false) (hf : Finished io) :
    ∃ s1, Prepared s io jobID s1 ∧
      processConversion s io jobID filename = completeRun s1 io jobID filename := by
  rcases processConversion_cases s io jobID filename with
    ⟨s1, msg, hp, hft, heq⟩ | ⟨s1, hp, _, _, _, heq⟩
  · rcases hft with h | h | h | h | h | h | h
    · obtain ⟨e, h, _⟩ := h
      rw [hr.1] at h; cases h
    · obtain ⟨_, e, h, _⟩ := h
      rw [hr.2.1] at h; cases h
    · obtain ⟨_, _, e, h, _⟩ := h
      rw [hr.2.2] at h; cases h
    · rw [hc] at h; cases h.2.1
    · exact absurd hf.1 h.2.2.1
    · rw [hf.2.1] at h; cases h.2.2.2.1
    · exact absurd hf.2.2 h.2.2.2.2.1
  · exact ⟨s1, hp, heq⟩

theorem conversionFailed_iff (err : GoError) (output : String) :
    conversionFailed err output = true ↔
      (err ≠ none ∨ HasMarker "Error:" output ∨ HasMarker "failed:" output) := by
  unfold conversionFailed HasMarker
  rw [Bool.or_eq_true, Bool.or_eq_true, stringsContains_iff, stringsContains_iff, or_assoc]
  cases err <;> simp

/-! ## C3: classification of the converter outcome -/

/-- C3: the condition of processConversion that classifies a converter
invocation as failed holds exactly when the process returned an error or the
output contains "Error:" or "failed:"; when the converter is reached and the
later steps succeed, the single store write of the run is the transition to
failed in that case, and the transition to complete otherwise. -/
theorem converter_failure_classification (s : Server) (io : ConvIO) (jobID filename : String)
    (hr : Reached io) (hf : Finished io) :
    (conversionFailed io.cmdErr io.output = true ↔
      (io.cmdErr ≠ none ∨ HasMarker "Error:" io.output ∨ HasMarker "failed:" io.output)) ∧
    ((io.cmdErr ≠ none ∨ HasMarker "Error:" io.output ∨ HasMarker "failed:" io.output) →
      WritesJob s (processConversion s io jobID filename) io.updateFails
        (statusJob jobID StatusFailed (conversionErrorMsg io.output) io.now)) ∧
    (¬ (io.cmdErr ≠ none ∨ HasMarker "Error:" io.output ∨ HasMarker "failed:" io.output) →
      WritesJob s (processConversion s io jobID filename) io.updateFails
        (completeJob io jobID filename)) := by
  refine ⟨conversionFailed_iff _ _, ?_, ?_⟩
  · intro h
    obtain ⟨s1, hp, heq⟩ := processConversion_converter_failure s io jobID filename hr
      ((conversionFailed_iff _ _).mpr h)
    rw [heq]
    exact updateJobStatus_writes hp _ _
  · intro h
    have hc : conversionFailed io.cmdErr io.output = false := by
      cases hcf : conversionFailed io.cmdErr io.output with
      | false => rfl
      | true => exact absurd ((conversionFailed_iff _ _).mp hcf) h
    obtain ⟨s1, hp, heq⟩ := processConversion_success s io jobID filename hr hc hf
    rw [heq]
    exact completeRun_writes hp _

/-- C3, at the scenario of an exit code zero with an error line: the job of
`pendingServer` is stored as failed. -/
theorem converter_failure_classification_example :
    Reached errorLineIO ∧ Finished errorLineIO ∧
    HasMarker "Error:" errorLineIO.output ∧
    WritesJob pendingServer (processConversion pendingServer errorLineIO "j1" "a.docx")
      errorLineIO.updateFails
      (statusJob "j1" StatusFailed (conversionErrorMsg errorLineIO.output) errorLineIO.now) ∧
    (processConversion pendingServer errorLineIO "j1" "a.docx").db.map (fun r => r.Status)
      = ["failed"] :=
  have hm : HasMarker "Error:" errorLineIO.output :=
    ⟨"convert x\n".data, " conversion failed\nmore".data, by decide⟩
  ⟨by decide, by decide, hm,
    (converter_failure_classification pendingServer errorLineIO "j1" "a.docx"
      (by decide) (by decide)).2.1 (Or.inr (Or.inl hm)),
    by decide⟩

theorem conversionErrorMsg_eq_generic_iff (output : String) :
    conversionErrorMsg output = "Conversion failed" ↔ ¬ HasMarker "Error:" output := by
  constructor
  · intro h hm
    have hc := (stringsContains_iff output "Error:").mpr hm
    obtain ⟨pre, rest, _, hpre, _⟩ := conversionErrorMsg_of_contains output hc
    rw [h] at hpre
    exact absurd hpre (by decide)
  · intro h
    apply conversionErrorMsg_of_not_contains
    cases hc : stringsContains output "Error:" with
    | false => rfl
    | true => exact absurd ((stringsContains_iff output "Error:").mp hc) h

/-! ## C4: the diagnostic of a converter failure -/

/-- C4 (as amended): for every converter output classified as a failure, the
diagnostic that processConversion writes with the failed status is, when the
output contains "Error:", the text from the first occurrence of "Error:" up
to, not including, the next line break (or the end of the output), and the
generic message "Conversion failed" if and only if the output does not contain
"Error:"; the marker "failed:" is not looked for by the extraction. -/
theorem converter_diagnostic (s : Server) (io : ConvIO) (jobID filename : String)
    (hr : Reached io) (hc : conversionFailed io.cmdErr io.output = true) :
    WritesJob s (processConversion s io jobID filename) io.updateFails
      (statusJob jobID StatusFailed (conversionErrorMsg io.output) io.now) ∧
    (HasMarker "Error:" io.output →
      IsFirstMarkerLine "Error:".data io.output.data (conversionErrorMsg io.output).data) ∧
    (conversionErrorMsg io.output = "Conversion failed" ↔ ¬ HasMarker "Error:" io.output) := by
  refine ⟨?_, ?_, conversionErrorMsg_eq_generic_iff _⟩
  · obtain ⟨s1, hp, heq⟩ := processConversion_converter_failure s io jobID filename hr hc
    rw [heq]
    exact updateJobStatus_writes hp _ _
  · intro hm
    exact conversionErrorMsg_of_contains _ ((stringsContains_iff _ _).mpr hm)

/-- C4 (as amended), at an output whose only marker is "failed:". -/
theorem converter_diagnostic_example :
    Reached failedMarkerIO ∧
    conversionFailed failedMarkerIO.cmdErr failedMarkerIO.output = true ∧
    WritesJob pendingServer (processConversion pendingServer failedMarkerIO "j1" "a.docx")
      failedMarkerIO.updateFails
      (statusJob "j1" StatusFailed (conversionErrorMsg failedMarkerIO.output)
        failedMarkerIO.now) :=
  ⟨by decide, by decide,
    (converter_diagnostic pendingServer failedMarkerIO "j1" "a.docx"
      (by decide) (by decide)).1⟩

/-- C4 (as stated, refuted): the converter exits zero and its output holds the
recognized marker "failed:"; the run is classified as a failure and the stored
diagnostic is the generic message, not the text from the marker on. A second
output holds "failed:" before "Error:"; the diagnostic starts at "Error:",
which is not the first recognized marker. -/
theorem generic_message_despite_failed_marker :
    HasMarker "failed:" failedMarkerIO.output ∧
    conversionFailed failedMarkerIO.cmdErr failedMarkerIO.output = true ∧
    (processConversion pendingServer failedMarkerIO "j1" "a.docx").db.map
      (fun r => (r.Status, r.Error)) = [("failed", "Conversion failed")] ∧
    conversionErrorMsg "failed: a\nError: b\n" = "Error: b" :=
  ⟨⟨"convert /tmp/a.docx ".data, " no export filter".data, by decide⟩,
    by decide, by decide, by decide⟩

/-! ## C5: exit code zero with an error line -/

/-- C5: when the converter is reached and its output contains "Error:", then
whatever its exit result, an exit code of zero included, the single store
write of the run sets status failed with the error text that runs from the
first occurrence of "Error:" up to, not including, the next line break after
it (or to the end of the output), and unless that write fails every stored
row of the job has exactly this status and error. -/
theorem exit_zero_error_line (s : Server) (io : ConvIO) (jobID filename : String)
    (hr : Reached io) (hm : HasMarker "Error:" io.output) :
    IsFirstMarkerLine "Error:".data io.output.data (conversionErrorMsg io.output).data ∧
    WritesJob s (processConversion s io jobID filename) io.updateFails
      (statusJob jobID StatusFailed (conversionErrorMsg io.output) io.now) ∧
    (io.updateFails = false →
      (∀ r ∈ (processConversion s io jobID filename).db, r.ID = jobID →
        r.Status = StatusFailed ∧ r.Error = conversionErrorMsg io.output) ∧
      ((∃ r ∈ s.db, r.ID = jobID) →
        ∃ r ∈ (processConversion s io jobID filename).db, r.ID = jobID)) := by
  have hc : conversionFailed io.cmdErr io.output = true :=
    (conversionFailed_iff _ _).mpr (Or.inr (Or.inl hm))
  obtain ⟨s1, hp, heq⟩ := processConversion_converter_failure s io jobID filename hr hc
  have hw := updateJobStatus_writes hp StatusFailed (conversionErrorMsg io.output)
  rw [← heq] at hw
  refine ⟨conversionErrorMsg_of_contains _ ((stringsContains_iff _ _).mpr hm), hw, ?_⟩
  intro hu
  rw [hw.1, hu]
  simp only [DB.UpdateJob, Bool.false_eq_true, if_false, List.mem_map]
  constructor
  · rintro r ⟨r0, _, rfl⟩ hid
    by_cases h : r0.ID = jobID
    · simp [statusJob, h]
    · simp [statusJob, h] at hid
  · rintro ⟨r, hr1, hr2⟩
    exact ⟨_, ⟨r, hr1, rfl⟩, by simp [statusJob, hr2]⟩

/-- C5, at the scenario of the specification: exit code zero and the output
"convert x\nError: conversion failed\nmore" give status failed with the
diagnostic "Error: conversion failed". -/
theorem exit_zero_error_line_example :
    Reached errorLineIO ∧ errorLineIO.cmdErr = none ∧ HasMarker "Error:" errorLineIO.output ∧
    conversionErrorMsg errorLineIO.output = "Error: conversion failed" ∧
    (processConversion pendingServer errorLineIO "j1" "a.docx").db.map
      (fun r => (r.ID, r.Status, r.Error)) = [("j1", "failed", "Error: conversion failed")] ∧
    IsFirstMarkerLine "Error:".data errorLineIO.output.data
      (conversionErrorMsg errorLineIO.output).data :=
  have hm : HasMarker "Error:" errorLineIO.output :=
    ⟨"convert x\n".data, " conversion failed\nmore".data, by decide⟩
  ⟨by decide, rfl, hm, by decide, by decide,
    (exit_zero_error_line pendingServer errorLineIO "j1" "a.docx" (by decide) hm).1⟩

theorem conversionErrorMsg_ne_empty (output : String) : conversionErrorMsg output ≠ "" := by
  cases hc : stringsContains output "Error:" with
  | false =>
    rw [conversionErrorMsg_of_not_contains output hc]
    decide
  | true =>
    obtain ⟨pre, rest, _, ⟨t, ht⟩, _⟩ := conversionErrorMsg_of_contains output hc
    intro h
    rw [h] at ht
    cases ht

/-! ## C2: persist before broadcast -/

/-- C2 (defect shown): the directory creation fails and the UpdateJob call of
updateJobStatus returns an error; the stored row is still the pending one, and
a job_update with status failed is broadcast and written to the observer all
the same. -/
theorem failed_broadcast_without_commit :
    (processConversion pendingServer uncommittedIO "j1" "a.docx").db = [pendingRow] ∧
    (processConversion pendingServer uncommittedIO "j1" "a.docx").trace =
      [Action.broadcast (Message.jobUpdate pendingRow),
       Action.wsWrite 1 (Message.jobUpdate pendingRow) true,
       Action.dbUpdate failedPayload false,
       Action.broadcast (Message.jobUpdate failedPayload),
       Action.wsWrite 1 (Message.jobUpdate failedPayload) true] := by
  decide

/-! ## C6: a failed job has an error text -/

theorem OsError.Error_ne_empty (e : OsError) : e.Error ≠ "" := by
  intro h
  have hl := congrArg String.length h
  cases e with
  | pathError op path err =>
    simp only [OsError.Error, String.length_append] at hl
    have h1 : " ".length = 1 := rfl
    have h2 : "".length = 0 := rfl
    omega
  | shortWrite => exact absurd h (by decide)
  | invalidWrite => exact absurd h (by decide)

theorem FailText_ne_empty {io : ConvIO} {msg : String} (h : FailText io msg) : msg ≠ "" := by
  rcases h with h | h | h | h | h | h | h
  · obtain ⟨e, _, rfl⟩ := h
    exact OsError.Error_ne_empty e
  · obtain ⟨_, e, _, rfl⟩ := h
    exact OsError.Error_ne_empty e
  · obtain ⟨_, _, e, _, rfl⟩ := h
    exact OsError.Error_ne_empty e
  · rw [h.2.2]; exact conversionErrorMsg_ne_empty _
  · rw [h.2.2.2]; decide
  · rw [h.2.2.2.2]; decide
  · rw [h.2.2.2.2.2]; decide

/-- C6: on every failing path of processConversion (directory creation,
saving the upload, converter failure, directory chmod, missing artifact, file
chmod) the error text written with status failed is non-empty: the text of an
operating-system error has the form "op path: cause" or is one of the two
fixed texts of io.Copy, the converter diagnostic starts with "Error:" or is
"Conversion failed", and the other three are fixed messages. -/
theorem failed_error_nonempty (s : Server) (io : ConvIO) (jobID filename : String)
    (job : ConvertJob)
    (hw : WritesJob s (processConversion s io jobID filename) io.updateFails job)
    (hs : job.Status = StatusFailed) : job.Error ≠ "" := by
  rcases processConversion_cases s io jobID filename with
    ⟨s1, msg, hp, hft, heq⟩ | ⟨s1, hp, _, _, _, heq⟩
  · have hw2 := updateJobStatus_writes hp StatusFailed msg
    rw [← heq] at hw2
    rw [WritesJob_unique hw hw2]
    exact FailText_ne_empty hft
  · have hw2 := completeRun_writes hp filename
    rw [← heq] at hw2
    rw [WritesJob_unique hw hw2] at hs
    exact absurd (show StatusComplete = StatusFailed from hs) (by decide)

/-- C6, at a run whose directory creation fails. -/
theorem failed_error_nonempty_example :
    WritesJob pendingServer (processConversion pendingServer mkdirFailsIO "j1" "a.docx")
      mkdirFailsIO.updateFails failedPayload ∧
    failedPayload.Status = StatusFailed ∧ failedPayload.Error ≠ "" :=
  have hw : WritesJob pendingServer (processConversion pendingServer mkdirFailsIO "j1" "a.docx")
      mkdirFailsIO.updateFails failedPayload :=
    ⟨by decide,
      [Action.broadcast (Message.jobUpdate pendingRow),
       Action.wsWrite 1 (Message.jobUpdate pendingRow) true],
      [Action.broadcast (Message.jobUpdate failedPayload),
       Action.wsWrite 1 (Message.jobUpdate failedPayload) true],
      by decide, by decide⟩
  ⟨hw, rfl,
    failed_error_nonempty pendingServer mkdirFailsIO "j1" "a.docx" failedPayload hw rfl⟩

/-! ## C8: the payload of a job_update -/

/-- C8 (defect shown): the directory creation fails for a pending job; the
store then holds the row with its original_file and created_at, while the
job_update that updateJobStatus broadcasts carries an empty original_file and
the zero created_at. -/
theorem failed_broadcast_payload_differs :
    (processConversion pendingServer mkdirFailsIO "j1" "a.docx").db =
      [{ ID := "j1", OriginalFile := "a.docx", Status := "failed",
         Error := "mkdir /tmp/converter/j1/original: permission denied",
         CreatedAt := 5, UpdatedAt := 9 }] ∧
    (processConversion pendingServer mkdirFailsIO "j1" "a.docx").trace =
      [Action.broadcast (Message.jobUpdate pendingRow),
       Action.wsWrite 1 (Message.jobUpdate pendingRow) true,
       Action.dbUpdate failedPayload true,
       Action.broadcast (Message.jobUpdate
        { ID := "j1", OriginalFile := "", Status := "failed",
          Error := "mkdir /tmp/converter/j1/original: permission denied",
          CreatedAt := 0, UpdatedAt := 9 }),
       Action.wsWrite 1 (Message.jobUpdate failedPayload) true] := by
  decide

theorem received_append (c : Nat) (t u : List Action) :
    received c (t ++ u) = received c t ++ received c u := by
  simp [received, List.filterMap_append]

theorem broadcasts_append (t u : List Action) :
    broadcasts (t ++ u) = broadcasts t ++ broadcasts u := by
  simp [broadcasts, List.filterMap_append]

theorem broadcasts_writeAll (f : Nat → Bool) (m : Message) (cs : List Nat) :
    broadcasts (writeAll f m cs) = [] := by
  induction cs with
  | nil => rfl
  | cons c cs ih =>
    simp only [writeAll, List.map_cons, broadcasts, List.filterMap_cons] at ih ⊢
    exact ih

theorem received_writeAll_not_mem (c : Nat) (f : Nat → Bool) (m : Message) (cs : List Nat)
    (h : c ∉ cs) : received c (writeAll f m cs) = [] := by
  induction cs with
  | nil => rfl
  | cons d ds ih =>
    have hd : d ≠ c := fun e => h (e ▸ List.mem_cons_self _ _)
    have ih2 := ih (fun hm => h (List.mem_cons_of_mem _ hm))
    simp only [writeAll, List.map_cons, received, List.filterMap_cons] at ih2 ⊢
    cases hf : f d <;> simp [hd, ih2]

theorem received_writeAll (c : Nat) (f : Nat → Bool) (m : Message) (cs : List Nat)
    (hc : c ∈ cs) (hn : cs.Nodup) (hf : f c = false) : received c (writeAll f m cs) = [m] := by
  induction cs with
  | nil => cases hc
  | cons d ds ih =>
    rw [List.nodup_cons] at hn
    by_cases hd : d = c
    · subst hd
      have := received_writeAll_not_mem d f m ds hn.1
      simp only [writeAll, List.map_cons, received, List.filterMap_cons] at this ⊢
      simp [hf, this]
    · have hc2 : c ∈ ds := by
        rcases List.mem_cons.mp hc with h | h
        · exact absurd h.symm hd
        · exact h
      have ih2 := ih hc2 hn.2
      simp only [writeAll, List.map_cons, received, List.filterMap_cons] at ih2 ⊢
      cases hfd : f d <;> simp [hd, ih2]

theorem find_append_fresh (db : DB) (job : ConvertJob)
    (hfresh : db.any (fun r => r.ID == job.ID) = false) :
    (db ++ [job]).find? (fun r => r.ID == job.ID) = some job := by
  induction db with
  | nil => simp
  | cons r rs ih =>
    simp only [List.any_cons, Bool.or_eq_false_iff] at hfresh
    simp [List.find?_cons, hfresh.1, ih hfresh.2]

theorem find_update_fresh (db : DB) (job upd : ConvertJob) (hid : upd.ID = job.ID)
    (hfresh : db.any (fun r => r.ID == job.ID) = false) :
    ((db ++ [job]).UpdateJob upd false).1.find? (fun r => r.ID == job.ID) =
      some { job with Status := upd.Status, Error := upd.Error,
                      ConvertedFile := upd.ConvertedFile, UpdatedAt := upd.UpdatedAt } := by
  induction db with
  | nil => simp [DB.UpdateJob, hid]
  | cons r rs ih =>
    simp only [List.any_cons, Bool.or_eq_false_iff] at hfresh
    have hne : r.ID ≠ job.ID := by simpa using hfresh.1
    have ih2 := ih hfresh.2
    simp only [DB.UpdateJob, Bool.false_eq_true, if_false] at ih2 ⊢
    rw [List.cons_append, List.map_cons, List.find?_cons]
    have hne2 : r.ID ≠ upd.ID := by rw [hid]; exact hne
    rw [if_neg hne2]
    have hb : (r.ID == job.ID) = false := hfresh.1
    rw [hb]
    exact ih2


theorem handleCreateConvert_accepted (s : Server) (cio : CreateIO) (r : UploadRequest)
    (hacc : Accepted r) (hcf : cio.createFails = false)
    (hfresh : s.db.any (fun row => row.ID == cio.uuid) = false) :
    handleCreateConvert s cio r =
      ⟨broadcastJobUpdate
        { s with db := s.db ++ [createdJob cio r],
                 trace := s.trace ++ [Action.dbCreate (createdJob cio r) true] }
        cio.wsFails (createdJob cio r), 202, some (cio.uuid, r.Filename)⟩ := by
  obtain ⟨h1, h2, h3⟩ := hacc
  unfold handleCreateConvert
  simp only [h1, h2, h3, DB.CreateJob, hcf, hfresh, Bool.false_eq_true, if_false, Bool.not_true,
    Bool.false_or, Bool.or_self]
  rfl

theorem createAndRun_trace (s : Server) (cio : CreateIO) (r : UploadRequest) (io : ConvIO)
    (hacc : Accepted r) (hcf : cio.createFails = false)
    (hfresh : s.db.any (fun row => row.ID == cio.uuid) = false) (hall : AllSucceed io) :
    (createAndRun s cio r io).trace = s.trace ++ createAndRunActions s cio r io ∧
    (createAndRun s cio r io).db =
      ((s.db ++ [createdJob cio r]).UpdateJob (completeJob io cio.uuid r.Filename) false).1 := by
  obtain ⟨hgi, hr, hc, hf, hu, hgu⟩ := hall
  unfold createAndRun
  rw [handleCreateConvert_accepted s cio r hacc hcf hfresh]
  simp only []
  obtain ⟨s1, ⟨hdb, hcl, htr⟩, heq⟩ := processConversion_success
    (broadcastJobUpdate
        { s with db := s.db ++ [createdJob cio r],
                 trace := s.trace ++ [Action.dbCreate (createdJob cio r) true] }
        cio.wsFails (createdJob cio r)) io cio.uuid r.Filename hr hc hf
  have hdb2 : s1.db = s.db ++ [createdJob cio r] := hdb
  have hcl2 : s1.clients = s.clients := hcl
  have hfind := find_append_fresh s.db (createdJob cio r) hfresh
  have hfind2 := find_update_fresh s.db (createdJob cio r) (completeJob io cio.uuid r.Filename)
    rfl hfresh
  have hinit : initialActions (broadcastJobUpdate
        { s with db := s.db ++ [createdJob cio r],
                 trace := s.trace ++ [Action.dbCreate (createdJob cio r) true] }
        cio.wsFails (createdJob cio r)) io cio.uuid =
      Action.broadcast (Message.jobUpdate (createdJob cio r)) ::
        writeAll io.wsFailsInitial (Message.jobUpdate (createdJob cio r)) s.clients := by
    unfold initialActions
    have : DB.GetJob (s.db ++ [createdJob cio r]) cio.uuid io.getInitialFails
        = some (createdJob cio r) := by
      rw [hgi]
      exact hfind
    simp only [broadcastJobUpdate, this]
  have htail : completeTail s1 io cio.uuid r.Filename =
      Action.broadcast (Message.jobUpdate (finishedJob cio r io)) ::
        writeAll io.wsFailsFinal (Message.jobUpdate (finishedJob cio r io)) s.clients := by
    unfold completeTail
    rw [hdb2, hu, hgu, hcl2]
    have : DB.GetJob ((s.db ++ [createdJob cio r]).UpdateJob
        (completeJob io cio.uuid r.Filename) false).1 cio.uuid false
          = some (finishedJob cio r io) := hfind2
    rw [this, UpdateJob_snd]
    rfl
  constructor
  · rw [heq, completeRun_trace, htr, hinit, htail, hdb2, hu, UpdateJob_snd]
    simp [broadcastJobUpdate, createAndRunActions]
  · rw [heq, completeRun_db, hdb2, hu]


/-! ## C7: the broadcasts of an accepted upload -/

/-- C7 (as amended): for an accepted upload whose conversion succeeds
(handleCreateConvert followed by its processConversion run, all I/O
succeeding), the server makes exactly three job_update broadcasts for the job
and every registered observer whose writes succeed receives exactly these, in
this order: the pending job from handleCreateConvert, the pending job again
from the re-fetch at the start of processConversion, and the complete job. -/
theorem accepted_upload_broadcasts (s : Server) (cio : CreateIO) (r : UploadRequest)
    (io : ConvIO) (hacc : Accepted r) (hcf : cio.createFails = false)
    (hfresh : s.db.any (fun row => row.ID == cio.uuid) = false) (hall : AllSucceed io)
    (c : Nat) (hc : c ∈ s.clients) (hn : s.clients.Nodup) (hw1 : cio.wsFails c = false)
    (hw2 : io.wsFailsInitial c = false) (hw3 : io.wsFailsFinal c = false) :
    ∃ t, (createAndRun s cio r io).trace = s.trace ++ t ∧
      broadcasts t = [Message.jobUpdate (createdJob cio r), Message.jobUpdate (createdJob cio r),
        Message.jobUpdate (finishedJob cio r io)] ∧
      received c t = [Message.jobUpdate (createdJob cio r), Message.jobUpdate (createdJob cio r),
        Message.jobUpdate (finishedJob cio r io)] ∧
      (createdJob cio r).Status = StatusPending ∧
      (finishedJob cio r io).Status = StatusComplete := by
  refine ⟨createAndRunActions s cio r io,
    (createAndRun_trace s cio r io hacc hcf hfresh hall).1, ?_, ?_, rfl, rfl⟩
  · unfold createAndRunActions
    have e1 : ∀ (m : Message) (t : List Action),
        broadcasts (Action.broadcast m :: t) = m :: broadcasts t := fun _ _ => rfl
    have e2 : ∀ (j : ConvertJob) (b : Bool) (t : List Action),
        broadcasts (Action.dbCreate j b :: t) = broadcasts t := fun _ _ _ => rfl
    have e3 : ∀ (j : ConvertJob) (b : Bool) (t : List Action),
        broadcasts (Action.dbUpdate j b :: t) = broadcasts t := fun _ _ _ => rfl
    simp only [broadcasts_append, e1, e2, e3, broadcasts_writeAll]
    rfl
  · unfold createAndRunActions
    have e1 : ∀ (m : Message) (t : List Action),
        received c (Action.broadcast m :: t) = received c t := fun _ _ => rfl
    have e2 : ∀ (j : ConvertJob) (b : Bool) (t : List Action),
        received c (Action.dbCreate j b :: t) = received c t := fun _ _ _ => rfl
    have e3 : ∀ (j : ConvertJob) (b : Bool) (t : List Action),
        received c (Action.dbUpdate j b :: t) = received c t := fun _ _ _ => rfl
    simp only [received_append, e1, e2, e3, received_writeAll c _ _ _ hc hn hw1,
      received_writeAll c _ _ _ hc hn hw2, received_writeAll c _ _ _ hc hn hw3]
    rfl

/-- C7 (as amended), at the upload of report.docx with one observer. -/
theorem accepted_upload_broadcasts_example :
    Accepted reportUpload ∧ AllSucceed reportRunIO ∧ 1 ∈ emptyServer.clients ∧
    ∃ t, (createAndRun emptyServer reportCreateIO reportUpload reportRunIO).trace =
        emptyServer.trace ++ t ∧
      broadcasts t = [Message.jobUpdate (createdJob reportCreateIO reportUpload),
        Message.jobUpdate (createdJob reportCreateIO reportUpload),
        Message.jobUpdate (finishedJob reportCreateIO reportUpload reportRunIO)] ∧
      received 1 t = [Message.jobUpdate (createdJob reportCreateIO reportUpload),
        Message.jobUpdate (createdJob reportCreateIO reportUpload),
        Message.jobUpdate (finishedJob reportCreateIO reportUpload reportRunIO)] ∧
      (createdJob reportCreateIO reportUpload).Status = StatusPending ∧
      (finishedJob reportCreateIO reportUpload reportRunIO).Status = StatusComplete :=
  ⟨by decide, by decide, by decide,
    accepted_upload_broadcasts emptyServer reportCreateIO reportUpload reportRunIO
      (by decide) rfl (by decide) (by decide) 1 (by decide) (by decide) rfl rfl rfl⟩

/-- C7 (as stated, refuted): report.docx is uploaded with its content type and
converted without any failure; the observer receives two job_update events
with status pending before the one with status complete. -/
theorem pending_broadcast_twice :
    (handleCreateConvert emptyServer reportCreateIO reportUpload).status = 202 ∧
    (received 1 (createAndRun emptyServer reportCreateIO reportUpload reportRunIO).trace).map
      messageStatus = ["pending", "pending", "complete"] := by
  decide

theorem sweepLoop_trace (io : SweepIO) :
    ∀ (jobs : List ConvertJob) (s : Server),
      (sweepLoop io jobs s).trace = s.trace ++ sweepActions io jobs := by
  intro jobs
  induction jobs with
  | nil => intro s; simp [sweepLoop, sweepActions]
  | cons j js ih =>
    intro s
    unfold sweepLoop sweepActions jobActions
    split
    · rename_i h
      rw [ih]
      simp [removeAll]
    · rename_i h
      rw [ih]
      simp only [deleteJob, removeAll, DB.DeleteJob]
      cases io.deleteFails j.ID <;> simp

theorem sweepLoop_db (io : SweepIO) :
    ∀ (jobs : List ConvertJob) (s : Server),
      (sweepLoop io jobs s).db =
        s.db.filter (fun r => !(jobs.any (fun j => j.ID == r.ID && swept io j.ID))) := by
  intro jobs
  induction jobs with
  | nil => intro s; simp [sweepLoop]
  | cons j js ih =>
    intro s
    unfold sweepLoop
    split
    · rename_i h
      rw [ih]
      have : (removeAll s j.ID true).db = s.db := rfl
      rw [this]
      apply List.filter_congr
      intro r _
      simp [swept, h]
    · rename_i h
      rw [ih]
      simp only [deleteJob, removeAll, DB.DeleteJob]
      cases hd : io.deleteFails j.ID
      · simp only [Bool.false_eq_true, if_false, List.filter_filter]
        apply List.filter_congr
        intro r _
        have h' : io.removeFails j.ID = false := by simpa using h
        have hs : swept io j.ID = true := by simp [swept, h', hd]
        simp only [List.any_cons, hs, Bool.and_true]
        by_cases e : j.ID = r.ID
        · have eb : (j.ID == r.ID) = true := by simp [e]
          have eb2 : (r.ID != j.ID) = false := by simp [e]
          simp only [eb, eb2, Bool.and_false, Bool.true_or, Bool.not_true]
        · have eb : (j.ID == r.ID) = false := by simp [e]
          have eb2 : (r.ID != j.ID) = true := by
            simp only [bne_iff_ne, ne_eq]
            exact fun x => e x.symm
          simp only [eb, eb2, Bool.and_true, Bool.false_or]
      · simp only [if_true]
        apply List.filter_congr
        intro r _
        simp [swept, hd]

theorem removalsAttempted_sweepActions (io : SweepIO) (jobs : List ConvertJob) :
    removalsAttempted (sweepActions io jobs) = jobs.map (fun j => j.ID) := by
  induction jobs with
  | nil => rfl
  | cons j js ih =>
    unfold removalsAttempted at ih ⊢
    simp only [sweepActions, jobActions, List.filterMap_append, ih, List.map_cons]
    split <;> rfl

theorem dbDelete_mem_sweepActions (io : SweepIO) (jobs : List ConvertJob) (id : String)
    (ok : Bool) (h : Action.dbDelete id ok ∈ sweepActions io jobs) :
    io.removeFails id = false ∧ Action.removeAll id true ∈ sweepActions io jobs := by
  induction jobs with
  | nil => cases h
  | cons j js ih =>
    simp only [sweepActions, List.mem_append] at h ⊢
    rcases h with h | h
    · unfold jobActions at h ⊢
      split at h
      · simp at h
      · rename_i hr
        have hr' : io.removeFails j.ID = false := by simpa using hr
        rcases List.mem_cons.mp h with h | h
        · cases h
        · rcases List.mem_cons.mp h with h | h
          · injection h with h1 h2
            rw [h1]
            exact ⟨hr', Or.inl (by simp [hr'])⟩
          · cases h
    · exact ⟨(ih h).1, Or.inr (ih h).2⟩

theorem mem_old_of_id_mem (db : DB) (zone : Nat → Int) (cutoff : Nat) (hwf : db.WF)
    (r : ConvertJob) (hr : r ∈ db) (j : ConvertJob) (hj : j ∈ oldJobs db zone cutoff)
    (hid : j.ID = r.ID) : isOld zone cutoff r = true := by
  have hj2 := List.mem_filter.mp hj
  have := List.inj_on_of_nodup_map hwf hj2.1 hr hid
  rw [← this]
  exact hj2.2

theorem cleanupTick_eq (s : Server) (io : SweepIO) (cutoff : Nat)
    (hg : io.getOldFails = false) :
    cleanupTick s io cutoff = sweepLoop io (oldJobs s.db io.zone cutoff) s := by
  unfold cleanupTick DB.GetOldJobs oldJobs isOld
  simp [hg]

theorem cleanupTick_db (s : Server) (io : SweepIO) (cutoff : Nat) (hwf : s.db.WF)
    (hg : io.getOldFails = false) :
    (cleanupTick s io cutoff).db =
      s.db.filter (fun r => !(isOld io.zone cutoff r && swept io r.ID)) := by
  rw [cleanupTick_eq s io cutoff hg, sweepLoop_db]
  apply List.filter_congr
  intro r hr
  congr 1
  cases hold : isOld io.zone cutoff r
  · simp only [Bool.false_and]
    rw [List.any_eq_false]
    intro j hj
    by_cases e : j.ID = r.ID
    · have := mem_old_of_id_mem s.db io.zone cutoff hwf r hr j hj e
      rw [hold] at this
      cases this
    · simp [e]
  · cases hs : swept io r.ID
    · simp only [Bool.and_false]
      rw [List.any_eq_false]
      intro j _
      by_cases e : j.ID = r.ID
      · simp [e, hs]
      · simp [e]
    · simp only [Bool.and_true]
      rw [List.any_eq_true]
      exact ⟨r, List.mem_filter.mpr ⟨hr, hold⟩, by simp [hs]⟩

theorem sqlLt_fixed_zone (off : Int) (a b : Nat) :
    sqlLt (sqlStamp (fun _ => off) a) (sqlStamp (fun _ => off) b) = decide (a < b) := by
  have ho : offsetTextLt off off = false := by
    unfold offsetTextLt
    by_cases h : 0 ≤ off
    · have h2 : ¬ off < 0 := by omega
      simp [h, h2]
    · simp [h]
  unfold sqlLt sqlStamp
  simp only [ho, Bool.and_false, Bool.or_false]
  by_cases h : a < b
  · have : (a : Int) + off < (b : Int) + off := by omega
    simp [h, this]
  · have : ¬ ((a : Int) + off < (b : Int) + off) := by omega
    simp [h, this]

/-- The loop of a sweep, for every pattern of failures: the old jobs are
processed in the order in which the store returned them, each by itself; the
store deletion of a job is attempted only after its directory removal
succeeded; the rows removed are those of the returned jobs for which both
steps succeed, so a job whose store deletion fails keeps its row. -/
theorem sweep_loop_isolates_failures (s : Server) (io : SweepIO) (cutoff : Nat)
    (hwf : s.db.WF) (hg : io.getOldFails = false) :
    (cleanupTick s io cutoff).trace =
      s.trace ++ sweepActions io (oldJobs s.db io.zone cutoff) ∧
    removalsAttempted (sweepActions io (oldJobs s.db io.zone cutoff)) =
      (oldJobs s.db io.zone cutoff).map (fun j => j.ID) ∧
    (∀ id ok, Action.dbDelete id ok ∈ sweepActions io (oldJobs s.db io.zone cutoff) →
      io.removeFails id = false ∧
      Action.removeAll id true ∈ sweepActions io (oldJobs s.db io.zone cutoff)) ∧
    (cleanupTick s io cutoff).db =
      s.db.filter (fun r => !(isOld io.zone cutoff r && swept io r.ID)) ∧
    (∀ r ∈ s.db, io.deleteFails r.ID = true → r ∈ (cleanupTick s io cutoff).db) := by
  have hdb := cleanupTick_db s io cutoff hwf hg
  refine ⟨?_, removalsAttempted_sweepActions io _, dbDelete_mem_sweepActions io _, hdb, ?_⟩
  · rw [cleanupTick_eq s io cutoff hg, sweepLoop_trace]
  · intro r hr hfail
    rw [hdb, List.mem_filter]
    exact ⟨hr, by simp [swept, hfail]⟩

/-- In a zone whose offset never changes the comparison of the stored texts
is the comparison of the instants: when every step succeeds, one tick leaves
exactly the rows created at or after the cutoff. -/
theorem sweep_exact_in_fixed_zone (s : Server) (io : SweepIO) (cutoff : Nat) (hwf : s.db.WF)
    (off : Int) (hz : ∀ t, io.zone t = off)
    (hg : io.getOldFails = false) (hr : ∀ id, io.removeFails id = false)
    (hd : ∀ id, io.deleteFails id = false) :
    (cleanupTick s io cutoff).db = s.db.filter (fun r => decide (cutoff ≤ r.CreatedAt)) := by
  have hzf : io.zone = fun _ => off := funext hz
  rw [cleanupTick_db s io cutoff hwf hg]
  apply List.filter_congr
  intro r _
  simp only [swept, hr, hd, Bool.not_false, Bool.and_true, isOld, hzf, sqlLt_fixed_zone]
  by_cases h : r.CreatedAt < cutoff
  · simp [h, Nat.not_le.mpr h]
  · simp [h, Nat.not_lt.mp h]

/-! ## C9: what one sweep deletes -/

/-- C9 (defect shown): the server runs in the zone Europe/Berlin with the
default retention of 24 hours and sweeps on 2026-10-26 at 00:50 UTC, so the
cutoff is 2026-10-25 00:50 UTC, stored text "2026-10-25 02:50:00+02:00". Job b
was created on 2026-10-25 at 01:10 UTC, twenty minutes after the cutoff and
after the end of summer time, stored text "2026-10-25 02:10:00+01:00".
GetOldJobs compares the texts, returns job b, and the sweep removes its
directory and its row, although its created_at is not before the cutoff. -/
theorem sweep_deletes_job_after_cutoff :
    berlinCutoff ≤ berlinJobB.CreatedAt ∧
    berlinJobB ∈ berlinServer.db ∧
    sqlStamp berlinZone berlinCutoff = ⟨1792896600, 7200⟩ ∧
    sqlStamp berlinZone berlinJobB.CreatedAt = ⟨1792894200, 3600⟩ ∧
    DB.GetOldJobs berlinServer.db berlinZone berlinCutoff false =
      some [berlinJobA, berlinJobB] ∧
    (cleanupTick berlinServer { zone := berlinZone } berlinCutoff).db = [berlinJobC] ∧
    (cleanupTick berlinServer { zone := berlinZone } berlinCutoff).dirs = ["c"] ∧
    (cleanupTick berlinServer { zone := berlinZone } berlinCutoff).trace =
      [Action.removeAll "a" true, Action.dbDelete "a" true,
       Action.removeAll "b" true, Action.dbDelete "b" true] := by
  decide

/-! ## C10: failures inside one sweep -/

/-- C10 (defect shown): the server runs in the zone Europe/Berlin with a
sweep every 30 minutes and the default retention. The sweep with cutoff
2026-10-25 00:50 UTC (text "2026-10-25 02:50:00+02:00") finds job r, created
at 00:40 UTC (text "2026-10-25 02:40:00+02:00"); its directory is removed, its
store deletion fails and its row stays. The next sweep has the cutoff
01:20 UTC, after the end of summer time (text "2026-10-25 02:20:00+01:00");
GetOldJobs compares the texts and does not return job r, although its row is
in the store and its created_at is before that cutoff. -/
theorem failed_deletion_not_returned_by_next_sweep :
    berlinJobR.CreatedAt < berlinCutoff ∧ berlinCutoff ≤ berlinNextCutoff ∧
    (cleanupTick berlinRetryServer berlinRetryIO berlinCutoff).trace =
      [Action.removeAll "r" true, Action.dbDelete "r" false] ∧
    (cleanupTick berlinRetryServer berlinRetryIO berlinCutoff).db = [berlinJobR] ∧
    DB.GetOldJobs (cleanupTick berlinRetryServer berlinRetryIO berlinCutoff).db
      berlinZone berlinNextCutoff false = some [] ∧
    (cleanupTick (cleanupTick berlinRetryServer berlinRetryIO berlinCutoff)
      { zone := berlinZone } berlinNextCutoff).trace =
      [Action.removeAll "r" true, Action.dbDelete "r" false] := by
  decide

theorem GetJob_id {db : DB} {id : String} {f : Bool} {job : ConvertJob}
    (h : db.GetJob id f = some job) : job.ID = id := by
  unfold DB.GetJob at h
  split at h
  · cases h
  · have := List.find?_some h
    simpa using this

/-! ## C11: deleting a job -/

/-- C11: for an existing job, handleDeleteConvert answers 403 when the job is
still pending and then does nothing at all (no directory removal, no store
deletion, no broadcast: the server state is the same); when the status is
failed or complete and the directory removal and the store deletion succeed,
it answers 204, the working directory of the job and its store row are gone,
all other rows stay, and exactly one job_delete with the id of the job is
broadcast and written once to every observer. -/
theorem delete_depends_on_status (s : Server) (io : DeleteIO) (id : String) (job : ConvertJob)
    (hget : s.db.GetJob id io.getFails = some job) :
    (job.Status = StatusPending → handleDeleteConvert s io id = (s, 403)) ∧
    ((job.Status = StatusFailed ∨ job.Status = StatusComplete) →
      io.removeFails = false → io.deleteFails = false →
      (handleDeleteConvert s io id).2 = 204 ∧
      id ∉ (handleDeleteConvert s io id).1.dirs ∧
      (handleDeleteConvert s io id).1.dirs = s.dirs.filter (fun d => d != id) ∧
      (∀ row ∈ (handleDeleteConvert s io id).1.db, row.ID ≠ id) ∧
      (handleDeleteConvert s io id).1.db = s.db.filter (fun row => row.ID != id) ∧
      (handleDeleteConvert s io id).1.trace =
        s.trace ++ [Action.removeAll id true, Action.dbDelete id true,
          Action.broadcast (Message.jobDelete id)] ++
          writeAll io.wsFails (Message.jobDelete id) s.clients ∧
      broadcasts ([Action.removeAll id true, Action.dbDelete id true,
          Action.broadcast (Message.jobDelete id)] ++
          writeAll io.wsFails (Message.jobDelete id) s.clients) = [Message.jobDelete id]) := by
  have hid : job.ID = id := GetJob_id hget
  constructor
  · intro hst
    unfold handleDeleteConvert
    rw [hget]
    simp only [hst]
    rfl
  · intro hst hrm hdel
    have hcond : (job.Status != StatusComplete && job.Status != StatusFailed) = false := by
      rcases hst with h | h <;> rw [h] <;> decide
    have heq : handleDeleteConvert s io id =
        (broadcastJobDelete (deleteJob (removeAll s id false) id false).1 io.wsFails id, 204) := by
      unfold handleDeleteConvert
      rw [hget]
      simp only [hcond, hid, hrm, hdel, deleteJob, DB.DeleteJob, Bool.false_eq_true, if_false,
        Bool.not_true]
    rw [heq]
    refine ⟨rfl, ?_, ?_, ?_, ?_, ?_, ?_⟩
    · simp [broadcastJobDelete, deleteJob, removeAll, List.mem_filter]
    · simp [broadcastJobDelete, deleteJob, removeAll]
    · intro row hrow
      simp only [broadcastJobDelete, deleteJob, removeAll, DB.DeleteJob, Bool.false_eq_true,
        if_false, List.mem_filter] at hrow
      simpa using hrow.2
    · simp [broadcastJobDelete, deleteJob, removeAll, DB.DeleteJob]
    · simp [broadcastJobDelete, deleteJob, removeAll, DB.DeleteJob]
    · have e1 : ∀ (i : String) (b : Bool) (t : List Action),
          broadcasts (Action.removeAll i b :: t) = broadcasts t := fun _ _ _ => rfl
      have e2 : ∀ (i : String) (b : Bool) (t : List Action),
          broadcasts (Action.dbDelete i b :: t) = broadcasts t := fun _ _ _ => rfl
      have e3 : ∀ (m : Message) (t : List Action),
          broadcasts (Action.broadcast m :: t) = m :: broadcasts t := fun _ _ => rfl
      rw [broadcasts_append, e1, e2, e3, broadcasts_writeAll]
      rfl

/-- C11, at a pending job (rejected, nothing changes) and at a failed job
(directory and row removed, one job_delete broadcast). -/
theorem delete_depends_on_status_example :
    handleDeleteConvert runningServer { } "j1" = (runningServer, 403) ∧
    (handleDeleteConvert failedServer { } "j1").2 = 204 ∧
    (handleDeleteConvert failedServer { } "j1").1.db = [] ∧
    (handleDeleteConvert failedServer { } "j1").1.dirs = [] ∧
    (handleDeleteConvert failedServer { } "j1").1.trace =
      [Action.removeAll "j1" true, Action.dbDelete "j1" true,
       Action.broadcast (Message.jobDelete "j1"),
       Action.wsWrite 1 (Message.jobDelete "j1") true] :=
  ⟨(delete_depends_on_status runningServer { } "j1" pendingRow (by decide)).1 rfl,
    ((delete_depends_on_status failedServer { } "j1" failedRow (by decide)).2
      (Or.inl rfl) rfl rfl).1,
    by decide, by decide, by decide⟩


theorem allowedExtensions_iff (ext : String) :
    allowedExtensions ext = true ↔ (ext = ".docx" ∨ ext = ".xlsx" ∨ ext = ".odt") := by
  simp [allowedExtensions, or_assoc]

theorem allowedMimeTypes_iff (ct : String) :
    allowedMimeTypes ct = true ↔
      (ct = "application/vnd.openxmlformats-officedocument.wordprocessingml.document" ∨
       ct = "application/vnd.openxmlformats-officedocument.spreadsheetml.sheet" ∨
       ct = "application/vnd.oasis.opendocument.text") := by
  simp [allowedMimeTypes, or_assoc]

theorem handleCreateConvert_rejected (s : Server) (io : CreateIO) (r : UploadRequest)
    (h : ¬ Accepted r) : handleCreateConvert s io r = ⟨s, 400, none⟩ := by
  unfold Accepted at h
  unfold handleCreateConvert
  cases h1 : r.formFileErr
  · cases h2 : allowedExtensions (stringsToLower (filepathExt r.Filename))
    · simp [h2]
    · cases h3 : allowedMimeTypes r.ContentType
      · simp [h2, h3]
      · exact absurd ⟨h1, h2, h3⟩ h
  · simp

/-! ## C12: which uploads are accepted -/

/-- C12 (as amended): handleCreateConvert accepts an upload (answers 202 and
creates a job) only if the extension of the file name, lower-cased, is one of
.docx, .xlsx, .odt and the declared content type is one of the three allowed
types, whichever of them; every upload that fails one of the two checks is
answered 400 with the server state unchanged: no store call, no broadcast. -/
theorem upload_acceptance (s : Server) (io : CreateIO) (r : UploadRequest) :
    ((handleCreateConvert s io r).status = 202 →
      (stringsToLower (filepathExt r.Filename) = ".docx" ∨
       stringsToLower (filepathExt r.Filename) = ".xlsx" ∨
       stringsToLower (filepathExt r.Filename) = ".odt") ∧
      (r.ContentType =
          "application/vnd.openxmlformats-officedocument.wordprocessingml.document" ∨
       r.ContentType = "application/vnd.openxmlformats-officedocument.spreadsheetml.sheet" ∨
       r.ContentType = "application/vnd.oasis.opendocument.text")) ∧
    (¬ ((stringsToLower (filepathExt r.Filename) = ".docx" ∨
         stringsToLower (filepathExt r.Filename) = ".xlsx" ∨
         stringsToLower (filepathExt r.Filename) = ".odt") ∧
        (r.ContentType =
            "application/vnd.openxmlformats-officedocument.wordprocessingml.document" ∨
         r.ContentType = "application/vnd.openxmlformats-officedocument.spreadsheetml.sheet" ∨
         r.ContentType = "application/vnd.oasis.opendocument.text")) →
      handleCreateConvert s io r = ⟨s, 400, none⟩) ∧
    ((handleCreateConvert s io r).server.db ≠ s.db →
      (handleCreateConvert s io r).status = 202) := by
  refine ⟨?_, ?_, ?_⟩
  · intro h202
    by_cases hacc : Accepted r
    · exact ⟨(allowedExtensions_iff _).mp hacc.2.1, (allowedMimeTypes_iff _).mp hacc.2.2⟩
    · rw [handleCreateConvert_rejected s io r hacc] at h202
      cases h202
  · intro hn
    apply handleCreateConvert_rejected
    intro hacc
    exact hn ⟨(allowedExtensions_iff _).mp hacc.2.1, (allowedMimeTypes_iff _).mp hacc.2.2⟩
  · intro hdb
    by_cases hacc : Accepted r
    · obtain ⟨h1, h2, h3⟩ := hacc
      revert hdb
      unfold handleCreateConvert
      simp only [h1, h2, h3, Bool.false_eq_true, if_false, Bool.not_true, DB.CreateJob]
      split
      · intro hdb
        exact absurd rfl hdb
      · intro _
        simp
    · rw [handleCreateConvert_rejected s io r hacc] at hdb
      exact absurd rfl hdb

/-- C12 (as amended), at an upload with extension .pdf: answered 400, the
server is as before. -/
theorem upload_acceptance_example :
    ¬ ((stringsToLower (filepathExt pdfUpload.Filename) = ".docx" ∨
         stringsToLower (filepathExt pdfUpload.Filename) = ".xlsx" ∨
         stringsToLower (filepathExt pdfUpload.Filename) = ".odt") ∧
        (pdfUpload.ContentType =
            "application/vnd.openxmlformats-officedocument.wordprocessingml.document" ∨
         pdfUpload.ContentType =
            "application/vnd.openxmlformats-officedocument.spreadsheetml.sheet" ∨
         pdfUpload.ContentType = "application/vnd.oasis.opendocument.text")) ∧
    handleCreateConvert pendingServer reportCreateIO pdfUpload = ⟨pendingServer, 400, none⟩ :=
  ⟨by decide,
    (upload_acceptance pendingServer reportCreateIO pdfUpload).2.1 (by decide)⟩

/-- C12 (as stated, refuted): a file named a.docx is uploaded with the content
type of an OpenDocument text, which is not the type of its extension; the
upload is accepted and the job is created. -/
theorem mismatched_content_type_accepted :
    (handleCreateConvert emptyServer reportCreateIO mismatchedUpload).status = 202 ∧
    (handleCreateConvert emptyServer reportCreateIO mismatchedUpload).server.db.map
      (fun r => (r.ID, r.OriginalFile, r.Status)) = [("j2", "a.docx", "pending")] ∧
    (handleCreateConvert emptyServer reportCreateIO mismatchedUpload).spawned =
      some ("j2", "a.docx") := by
  decide


theorem UpdateJob_row_of_id (db : DB) (job : ConvertJob) :
    (∀ r ∈ (db.UpdateJob job false).1, r.ID = job.ID →
      r.Status = job.Status ∧ r.Error = job.Error) ∧
    ((∃ r ∈ db, r.ID = job.ID) → ∃ r ∈ (db.UpdateJob job false).1, r.ID = job.ID) := by
  simp only [DB.UpdateJob, Bool.false_eq_true, if_false, List.mem_map]
  constructor
  · rintro r ⟨r0, _, rfl⟩ hid
    by_cases h : r0.ID = job.ID
    · simp [h]
    · simp [h] at hid
  · rintro ⟨r, hr1, hr2⟩
    exact ⟨_, ⟨r, hr1, rfl⟩, by simp [hr2]⟩

theorem UpdateJob_fails (db : DB) (job : ConvertJob) : (db.UpdateJob job true).1 = db := rfl

theorem processConversion_writes (s : Server) (io : ConvIO) (jobID filename : String) :
    (∃ msg, FailText io msg ∧ WritesJob s (processConversion s io jobID filename)
        io.updateFails (statusJob jobID StatusFailed msg io.now)) ∨
    (Reached io ∧ Finished io ∧ WritesJob s (processConversion s io jobID filename)
        io.updateFails (completeJob io jobID filename)) := by
  rcases processConversion_cases s io jobID filename with
    ⟨s1, msg, hp, hft, heq⟩ | ⟨s1, hp, hr, _, hf, heq⟩
  · refine Or.inl ⟨msg, hft, ?_⟩
    rw [heq]
    exact updateJobStatus_writes hp _ _
  · refine Or.inr ⟨hr, hf, ?_⟩
    rw [heq]
    exact completeRun_writes hp _

theorem writesAttempted_writeAll (f : Nat → Bool) (m : Message) (cs : List Nat) :
    writesAttempted (writeAll f m cs) = cs.map (fun c => (c, m, !f c)) := by
  induction cs with
  | nil => rfl
  | cons c cs ih =>
    simp only [writeAll, writesAttempted, List.map_cons, List.filterMap_cons] at ih ⊢
    rw [ih]

theorem writesTo_writeAll_not_mem (c : Nat) (f : Nat → Bool) (m : Message) (cs : List Nat)
    (h : c ∉ cs) : writesTo c (writeAll f m cs) = [] := by
  induction cs with
  | nil => rfl
  | cons d ds ih =>
    have hd : d ≠ c := fun e => h (e ▸ List.mem_cons_self _ _)
    have ih2 := ih (fun hm => h (List.mem_cons_of_mem _ hm))
    simp only [writeAll, List.map_cons, writesTo, List.filterMap_cons] at ih2 ⊢
    simp [hd, ih2]

theorem writesTo_writeAll (c : Nat) (f : Nat → Bool) (m : Message) (cs : List Nat)
    (hc : c ∈ cs) (hn : cs.Nodup) : writesTo c (writeAll f m cs) = [(m, !f c)] := by
  induction cs with
  | nil => cases hc
  | cons d ds ih =>
    rw [List.nodup_cons] at hn
    by_cases hd : d = c
    · subst hd
      have := writesTo_writeAll_not_mem d f m ds hn.1
      simp only [writeAll, List.map_cons, writesTo, List.filterMap_cons] at this ⊢
      simp [this]
    · have hc2 : c ∈ ds := by
        rcases List.mem_cons.mp hc with h | h
        · exact absurd h.symm hd
        · exact h
      have ih2 := ih hc2 hn.2
      simp only [writeAll, List.map_cons, writesTo, List.filterMap_cons] at ih2 ⊢
      simp [hd, ih2]

/-! ## C14: one broadcast, one write per observer -/

/-- C14: for every registry of observers and every pattern of write failures,
one call of broadcastJobUpdate or of broadcastJobDelete attempts the write of
the one message to the registered observers one after the other, each
exactly once and no other observer at all; the outcome of the write to an
observer is its own failure flag, whatever happens to the others, and the
registry and the store are the same after the call. -/
theorem broadcast_writes_every_observer (s : Server) (f : Nat → Bool) (job : ConvertJob)
    (jobID : String) (hn : s.clients.Nodup) :
    ((broadcastJobUpdate s f job).clients = s.clients ∧
     (broadcastJobUpdate s f job).db = s.db ∧
     ∃ t, (broadcastJobUpdate s f job).trace = s.trace ++ t ∧
       writesAttempted t = s.clients.map (fun c => (c, Message.jobUpdate job, !f c)) ∧
       (∀ c ∈ s.clients, writesTo c t = [(Message.jobUpdate job, !f c)]) ∧
       (∀ c, c ∉ s.clients → writesTo c t = [])) ∧
    ((broadcastJobDelete s f jobID).clients = s.clients ∧
     (broadcastJobDelete s f jobID).db = s.db ∧
     ∃ t, (broadcastJobDelete s f jobID).trace = s.trace ++ t ∧
       writesAttempted t = s.clients.map (fun c => (c, Message.jobDelete jobID, !f c)) ∧
       (∀ c ∈ s.clients, writesTo c t = [(Message.jobDelete jobID, !f c)]) ∧
       (∀ c, c ∉ s.clients → writesTo c t = [])) := by
  have key : ∀ (m : Message),
      writesAttempted (Action.broadcast m :: writeAll f m s.clients) =
        s.clients.map (fun c => (c, m, !f c)) ∧
      (∀ c ∈ s.clients, writesTo c (Action.broadcast m :: writeAll f m s.clients) =
        [(m, !f c)]) ∧
      (∀ c, c ∉ s.clients →
        writesTo c (Action.broadcast m :: writeAll f m s.clients) = []) := by
    intro m
    have e1 : writesAttempted (Action.broadcast m :: writeAll f m s.clients) =
        writesAttempted (writeAll f m s.clients) := rfl
    have e2 : ∀ c, writesTo c (Action.broadcast m :: writeAll f m s.clients) =
        writesTo c (writeAll f m s.clients) := fun _ => rfl
    refine ⟨by rw [e1, writesAttempted_writeAll], ?_, ?_⟩
    · intro c hc
      rw [e2, writesTo_writeAll c f m s.clients hc hn]
    · intro c hc
      rw [e2, writesTo_writeAll_not_mem c f m s.clients hc]
  exact ⟨⟨rfl, rfl, _, rfl, key (Message.jobUpdate job)⟩,
    ⟨rfl, rfl, _, rfl, key (Message.jobDelete jobID)⟩⟩

/-- C14, at three observers of which the second one fails: the first and the
third are written all the same, and the three stay registered. -/
theorem broadcast_writes_every_observer_example :
    threeObservers.clients.Nodup ∧
    (broadcastJobDelete threeObservers secondFails "j1").trace =
      [Action.broadcast (Message.jobDelete "j1"),
       Action.wsWrite 1 (Message.jobDelete "j1") true,
       Action.wsWrite 2 (Message.jobDelete "j1") false,
       Action.wsWrite 3 (Message.jobDelete "j1") true] ∧
    (broadcastJobUpdate threeObservers secondFails pendingRow).trace =
      [Action.broadcast (Message.jobUpdate pendingRow),
       Action.wsWrite 1 (Message.jobUpdate pendingRow) true,
       Action.wsWrite 2 (Message.jobUpdate pendingRow) false,
       Action.wsWrite 3 (Message.jobUpdate pendingRow) true] ∧
    (broadcastJobDelete threeObservers secondFails "j1").clients = [1, 2, 3] ∧
    (broadcastJobUpdate threeObservers secondFails pendingRow).clients =
      threeObservers.clients :=
  ⟨by decide, by decide, by decide, by decide,
    (broadcast_writes_every_observer threeObservers secondFails pendingRow "j1"
      (by decide)).1.1⟩

theorem FailText_unique {io : ConvIO} {m1 m2 : String} (h1 : FailText io m1)
    (h2 : FailText io m2) : m1 = m2 := by
  unfold FailText Reached at h1 h2
  rcases h1 with ⟨e1, a1, rfl⟩ | ⟨n1, e1, a1, rfl⟩ | ⟨n1, n1', e1, a1, rfl⟩ |
      ⟨r1, c1, rfl⟩ | ⟨r1, c1, d1, rfl⟩ | ⟨r1, c1, d1, t1, rfl⟩ | ⟨r1, c1, d1, t1, f1, rfl⟩ <;>
    rcases h2 with ⟨e2, a2, rfl⟩ | ⟨n2, e2, a2, rfl⟩ | ⟨n2, n2', e2, a2, rfl⟩ |
      ⟨r2, c2, rfl⟩ | ⟨r2, c2, d2, rfl⟩ | ⟨r2, c2, d2, t2, rfl⟩ | ⟨r2, c2, d2, t2, f2, rfl⟩ <;>
    simp_all

theorem failsWith_of_failText (s : Server) (io : ConvIO) (jobID filename msg : String)
    (h : FailText io msg) : FailsWith s io jobID filename msg := by
  have hnot : ¬ (Reached io ∧ conversionFailed io.cmdErr io.output = false ∧ Finished io) := by
    rintro ⟨hr, hc, hf⟩
    unfold FailText at h
    rcases h with ⟨e, a, _⟩ | ⟨_, e, a, _⟩ | ⟨_, _, e, a, _⟩ | ⟨_, c, _⟩ | ⟨_, _, d, _⟩ |
      ⟨_, _, _, t, _⟩ | ⟨_, _, _, _, f, _⟩
    · rw [hr.1] at a; cases a
    · rw [hr.2.1] at a; cases a
    · rw [hr.2.2] at a; cases a
    · rw [hc] at c; cases c
    · exact d hf.1
    · rw [hf.2.1] at t; cases t
    · exact f hf.2.2
  rcases processConversion_cases s io jobID filename with
    ⟨s1, msg', hp, hft, heq⟩ | ⟨s1, hp, hr, hc, hf, _⟩
  · have hm : msg' = msg := FailText_unique hft h
    subst hm
    have hw := updateJobStatus_writes hp StatusFailed msg'
    rw [← heq] at hw
    refine ⟨hw, ?_⟩
    intro hu r hr hid
    rw [hw.1, hu] at hr
    exact (UpdateJob_row_of_id s.db _).1 r hr hid
  · exact absurd ⟨hr, hc, hf⟩ hnot

/-! ## C13: infrastructure errors during a run -/

/-- C13 (as amended): when a directory creation or the saving of the upload
fails, the single store write of the run is an UpdateJob with status failed
and the text of that error; when the permission change on the directory, the
artifact check or the permission change on the file fails, it is an UpdateJob
with status failed and the fixed message of that step; unless that UpdateJob
fails, the stored row of the job then has status failed and that diagnostic.
Whenever the UpdateJob of a run succeeds, the stored row of the job has status
failed or complete after the run; when the UpdateJob of the run returns an
error the store is left as it was, so a pending job stays pending. -/
theorem infrastructure_error_outcome (s : Server) (io : ConvIO) (jobID filename : String) :
    (∀ e, io.mkdirOriginal = some e → FailsWith s io jobID filename e.Error) ∧
    (∀ e, io.mkdirOriginal = none → io.mkdirConverted = some e →
      FailsWith s io jobID filename e.Error) ∧
    (∀ e, io.mkdirOriginal = none → io.mkdirConverted = none → io.saveFile = some e →
      FailsWith s io jobID filename e.Error) ∧
    (Reached io → conversionFailed io.cmdErr io.output = false → io.chmodDir ≠ none →
      FailsWith s io jobID filename "Failed to set directory permissions") ∧
    (Reached io → conversionFailed io.cmdErr io.output = false → io.chmodDir = none →
      io.statNotExist = true →
      FailsWith s io jobID filename "Converted file not found after conversion") ∧
    (Reached io → conversionFailed io.cmdErr io.output = false → io.chmodDir = none →
      io.statNotExist = false → io.chmodFile ≠ none →
      FailsWith s io jobID filename "Failed to set file permissions") ∧
    (io.updateFails = false →
      ∀ r ∈ (processConversion s io jobID filename).db, r.ID = jobID →
        r.Status = StatusFailed ∨ r.Status = StatusComplete) ∧
    (io.updateFails = false → (∃ r ∈ s.db, r.ID = jobID) →
      ∃ r ∈ (processConversion s io jobID filename).db, r.ID = jobID) ∧
    (io.updateFails = true → (processConversion s io jobID filename).db = s.db) := by
  refine ⟨?_, ?_, ?_, ?_, ?_, ?_, ?_, ?_, ?_⟩
  · intro e h
    exact failsWith_of_failText s io jobID filename _ (Or.inl ⟨e, h, rfl⟩)
  · intro e h1 h2
    exact failsWith_of_failText s io jobID filename _ (Or.inr (Or.inl ⟨h1, e, h2, rfl⟩))
  · intro e h1 h2 h3
    exact failsWith_of_failText s io jobID filename _
      (Or.inr (Or.inr (Or.inl ⟨h1, h2, e, h3, rfl⟩)))
  · intro hr hc hd
    exact failsWith_of_failText s io jobID filename _
      (Or.inr (Or.inr (Or.inr (Or.inr (Or.inl ⟨hr, hc, hd, rfl⟩)))))
  · intro hr hc hd ht
    exact failsWith_of_failText s io jobID filename _
      (Or.inr (Or.inr (Or.inr (Or.inr (Or.inr (Or.inl ⟨hr, hc, hd, ht, rfl⟩))))))
  · intro hr hc hd ht hf
    exact failsWith_of_failText s io jobID filename _
      (Or.inr (Or.inr (Or.inr (Or.inr (Or.inr (Or.inr ⟨hr, hc, hd, ht, hf, rfl⟩))))))
  · intro hu r hr hid
    rcases processConversion_writes s io jobID filename with ⟨msg, _, hw⟩ | ⟨_, _, hw⟩
    · rw [hw.1, hu] at hr
      exact Or.inl ((UpdateJob_row_of_id s.db _).1 r hr hid).1
    · rw [hw.1, hu] at hr
      exact Or.inr ((UpdateJob_row_of_id s.db _).1 r hr hid).1
  · intro hu hex
    rcases processConversion_writes s io jobID filename with ⟨msg, _, hw⟩ | ⟨_, _, hw⟩
    · rw [hw.1, hu]
      exact (UpdateJob_row_of_id s.db (statusJob jobID StatusFailed msg io.now)).2 hex
    · rw [hw.1, hu]
      exact (UpdateJob_row_of_id s.db (completeJob io jobID filename)).2 hex
  · intro hu
    rcases processConversion_writes s io jobID filename with ⟨msg, _, hw⟩ | ⟨_, _, hw⟩
    · rw [hw.1, hu]; rfl
    · rw [hw.1, hu]; rfl

/-- C13 (as amended), at a run whose permission change on the converted file
fails: the stored row of the job is failed with the message of that step. -/
theorem infrastructure_error_outcome_example :
    Reached chmodFailsIO ∧ conversionFailed chmodFailsIO.cmdErr chmodFailsIO.output = false ∧
    chmodFailsIO.chmodDir = none ∧ chmodFailsIO.statNotExist = false ∧
    chmodFailsIO.chmodFile ≠ none ∧
    (processConversion pendingServer chmodFailsIO "j1" "a.docx").db.map
      (fun r => (r.ID, r.Status, r.Error)) =
      [("j1", "failed", "Failed to set file permissions")] ∧
    FailsWith pendingServer chmodFailsIO "j1" "a.docx" "Failed to set file permissions" :=
  ⟨by decide, by decide, rfl, rfl, by decide, by decide,
    (infrastructure_error_outcome pendingServer chmodFailsIO "j1" "a.docx").2.2.2.2.2.1
      (by decide) (by decide) rfl rfl (by decide)⟩

/-- C13 (as stated, refuted): every step of the run succeeds and the final
UpdateJob returns an error; processConversion returns, nothing is broadcast,
and the stored status of the job is still pending. -/
theorem pending_after_failed_final_write :
    (processConversion pendingServer finalWriteFailsIO "j1" "a.docx").db = [pendingRow] ∧
    pendingRow.Status = "pending" ∧
    (processConversion pendingServer finalWriteFailsIO "j1" "a.docx").trace =
      [Action.broadcast (Message.jobUpdate pendingRow),
       Action.wsWrite 1 (Message.jobUpdate pendingRow) true,
       Action.dbUpdate
        { ID := "j1", Status := "complete",
          ConvertedFile := "/tmp/converter/j1/converted/a.html", UpdatedAt := 9 } false] := by
  decide

theorem forall₂_mem_right {R : ConvertJob → ConvertJob → Prop} :
    ∀ {l1 l2 : List ConvertJob}, List.Forall₂ R l1 l2 → ∀ b ∈ l2, ∃ a ∈ l1, R a b := by
  intro l1 l2 h
  induction h with
  | nil => intro b hb; cases hb
  | cons hab _ ih =>
    intro b hb
    rcases List.mem_cons.mp hb with rfl | hb
    · exact ⟨_, List.mem_cons_self _ _, hab⟩
    · obtain ⟨a, ha, hr⟩ := ih b hb
      exact ⟨a, List.mem_cons_of_mem _ ha, hr⟩

theorem forall₂_map_id {jobID : String} :
    ∀ {l1 l2 : List ConvertJob}, List.Forall₂ (RowStep jobID) l1 l2 →
      l2.map (fun r => r.ID) = l1.map (fun r => r.ID) := by
  intro l1 l2 h
  induction h with
  | nil => rfl
  | cons hab _ ih => simp only [List.map_cons, ih, hab.1]

theorem handleCreateConvert_db (s : Server) (io : CreateIO) (r : UploadRequest) :
    ((handleCreateConvert s io r).server.db = s.db ∧
      (handleCreateConvert s io r).spawned = none) ∨
    ((handleCreateConvert s io r).server.db = s.db ++ [createdJob io r] ∧
      (handleCreateConvert s io r).spawned = some (io.uuid, r.Filename)) := by
  unfold handleCreateConvert
  split
  · exact Or.inl ⟨rfl, rfl⟩
  simp only []
  split
  · exact Or.inl ⟨rfl, rfl⟩
  split
  · exact Or.inl ⟨rfl, rfl⟩
  unfold DB.CreateJob
  split
  · exact Or.inl ⟨rfl, rfl⟩
  · exact Or.inr ⟨rfl, rfl⟩


theorem nodup_erase_fst :
    ∀ (runs : List (String × String)) (j fn : String),
      (runs.map (fun p => p.1)).Nodup → (j, fn) ∈ runs →
      j ∉ (runs.erase (j, fn)).map (fun p => p.1) := by
  intro runs
  induction runs with
  | nil => intro j fn _ h; cases h
  | cons p ps ih =>
    intro j fn hn hm
    rw [List.map_cons, List.nodup_cons] at hn
    by_cases hp : p = (j, fn)
    · subst hp
      rw [List.erase_cons_head]
      exact hn.1
    · have hm2 : (j, fn) ∈ ps := by
        rcases List.mem_cons.mp hm with h | h
        · exact absurd h.symm hp
        · exact h
      have hb : ¬ (p == (j, fn)) = true := by simpa using hp
      rw [List.erase_cons_tail hb, List.map_cons, List.mem_cons]
      rintro (h | h)
      · exact hn.1 (h ▸ List.mem_map_of_mem (fun p => p.1) hm2)
      · exact ih j fn hn.2 hm2 h

theorem erase_fst_subset (runs : List (String × String)) (p : String × String) (i : String)
    (h : i ∈ (runs.erase p).map (fun q => q.1)) : i ∈ runs.map (fun q => q.1) :=
  ((List.erase_sublist p runs).map (fun q => q.1)).subset h

theorem Sys.inv_start (s : Server) (hwf : s.db.WF) : (Sys.start s).Inv := by
  refine ⟨?_, ?_, ?_, hwf, ?_⟩
  · intro r hr
    exact List.mem_map_of_mem (fun r => r.ID) hr
  · intro p hp
    cases hp
  · exact List.nodup_nil
  · intro r _ _ h
    cases h

theorem Sys.inv_of_sublist (σ : Sys) (hi : σ.Inv) (s' : Server)
    (hs : s'.db.Sublist σ.server.db) :
    Sys.Inv { σ with server := s' } := by
  obtain ⟨i1, i2, i3, i4, i5⟩ := hi
  refine ⟨fun r hr => i1 r (hs.subset hr), i2, i3, ?_, fun r hr => i5 r (hs.subset hr)⟩
  exact List.Nodup.sublist (hs.map (fun r => r.ID)) i4

theorem Sys.inv_step (σ : Sys) (op : Op) (hi : σ.Inv) (he : σ.enabled op = true) :
    (σ.step op).Inv := by
  cases op with
  | create io r =>
    obtain ⟨i1, i2, i3, i4, i5⟩ := hi
    have hfresh : io.uuid ∉ σ.issued := by
      simpa [Sys.enabled] using he
    rcases handleCreateConvert_db σ.server io r with ⟨hdb, hsp⟩ | ⟨hdb, hsp⟩
    · refine ⟨?_, ?_, ?_, ?_, ?_⟩
      · intro row hrow
        simp only [Sys.step, hdb] at hrow
        exact List.mem_cons_of_mem _ (i1 row hrow)
      · intro p hp
        simp only [Sys.step, hsp, Option.toList, List.append_nil] at hp
        exact List.mem_cons_of_mem _ (i2 p hp)
      · simpa only [Sys.step, hsp, Option.toList, List.append_nil] using i3
      · simpa only [Sys.step, hdb] using i4
      · intro row hrow ht
        simp only [Sys.step, hdb] at hrow
        simpa only [Sys.step, hsp, Option.toList, List.append_nil] using i5 row hrow ht
    · have hruns : ∀ i ∈ σ.runs.map (fun p => p.1), i ≠ io.uuid := by
        intro i hi2 e
        obtain ⟨p, hp, rfl⟩ := List.mem_map.mp hi2
        exact hfresh (e ▸ i2 p hp)
      have hrows : ∀ i ∈ σ.server.db.map (fun r => r.ID), i ≠ io.uuid := by
        intro i hi2 e
        obtain ⟨p, hp, rfl⟩ := List.mem_map.mp hi2
        exact hfresh (e ▸ i1 p hp)
      refine ⟨?_, ?_, ?_, ?_, ?_⟩
      · intro row hrow
        simp only [Sys.step, hdb, List.mem_append, List.mem_singleton] at hrow
        rcases hrow with h | h
        · exact List.mem_cons_of_mem _ (i1 row h)
        · rw [h]
          exact List.mem_cons_self _ _
      · intro p hp
        simp only [Sys.step, hsp, Option.toList, List.mem_append, List.mem_singleton] at hp
        rcases hp with h | h
        · exact List.mem_cons_of_mem _ (i2 p h)
        · rw [h]
          exact List.mem_cons_self _ _
      · simp only [Sys.step, hsp, Option.toList, List.map_append, List.map_cons, List.map_nil]
        rw [List.nodup_append]
        refine ⟨i3, List.nodup_singleton _, ?_⟩
        intro i h1 h2
        rw [List.mem_singleton] at h2
        exact hruns i h1 h2
      · show ((handleCreateConvert σ.server io r).server.db.map (fun r => r.ID)).Nodup
        rw [hdb, List.map_append, List.nodup_append]
        refine ⟨i4, List.nodup_singleton _, ?_⟩
        intro i h1 h2
        simp only [List.map_cons, List.map_nil, List.mem_singleton] at h2
        exact hrows i h1 h2
      · intro row hrow ht
        simp only [Sys.step, hdb, List.mem_append, List.mem_singleton] at hrow
        simp only [Sys.step, hsp, Option.toList, List.map_append, List.map_cons, List.map_nil,
          List.mem_append, List.mem_singleton]
        rcases hrow with h | h
        · rintro (h2 | h2)
          · exact i5 row h ht h2
          · exact hrows row.ID (List.mem_map_of_mem (fun r => r.ID) h) h2
        · rw [h] at ht
          rcases ht with ht | ht
          · exact absurd (show StatusPending = StatusComplete from ht) (by decide)
          · exact absurd (show StatusPending = StatusFailed from ht) (by decide)
  | run io jobID filename =>
    obtain ⟨i1, i2, i3, i4, i5⟩ := hi
    have hmem : (jobID, filename) ∈ σ.runs := by
      simpa [Sys.enabled] using he
    have hrs := (processConversion_single_write σ.server io jobID filename).2
    refine ⟨?_, ?_, ?_, ?_, ?_⟩
    · intro row hrow
      obtain ⟨row0, h0, hstep⟩ := forall₂_mem_right hrs row hrow
      rw [hstep.1]
      exact i1 row0 h0
    · intro p hp
      exact i2 p (List.mem_of_mem_erase hp)
    · exact List.Nodup.sublist ((List.erase_sublist _ σ.runs).map (fun p => p.1)) i3
    · show ((processConversion σ.server io jobID filename).db.map (fun r => r.ID)).Nodup
      rw [forall₂_map_id hrs]
      exact i4
    · intro row hrow ht hin
      obtain ⟨row0, h0, hstep⟩ := forall₂_mem_right hrs row hrow
      by_cases hj : row0.ID = jobID
      · have : row.ID = jobID := hstep.1.trans hj
        rw [this] at hin
        exact nodup_erase_fst σ.runs jobID filename i3 hmem hin
      · have heq : row = row0 := hstep.2.2.2.1 hj
        subst heq
        exact i5 row h0 ht (erase_fst_subset _ _ _ hin)
  | delete io id =>
    exact Sys.inv_of_sublist σ hi _ (handleDeleteConvert_db_sublist σ.server io id)
  | sweep io cutoffTime =>
    exact Sys.inv_of_sublist σ hi _ (cleanupTick_db_sublist σ.server io cutoffTime)
  | register c => exact hi
  | unregister c => exact hi

theorem Sys.settled_step (σ : Sys) (op : Op) (r : ConvertJob) (hs : σ.Settled r)
    (he : σ.enabled op = true) : (σ.step op).Settled r := by
  obtain ⟨s1, s2, s3⟩ := hs
  cases op with
  | create io q =>
    have hfresh : io.uuid ∉ σ.issued := by
      simpa [Sys.enabled] using he
    have hne : r.ID ≠ io.uuid := fun e => hfresh (e ▸ s1)
    rcases handleCreateConvert_db σ.server io q with ⟨hdb, hsp⟩ | ⟨hdb, hsp⟩
    · refine ⟨List.mem_cons_of_mem _ s1, ?_, ?_⟩
      · simpa only [Sys.step, hsp, Option.toList, List.append_nil] using s2
      · intro row hrow
        simp only [Sys.step, hdb] at hrow
        exact s3 row hrow
    · refine ⟨List.mem_cons_of_mem _ s1, ?_, ?_⟩
      · simp only [Sys.step, hsp, Option.toList, List.map_append, List.map_cons, List.map_nil,
          List.mem_append, List.mem_singleton]
        rintro (h | h)
        · exact s2 h
        · exact hne h
      · intro row hrow hid
        simp only [Sys.step, hdb, List.mem_append, List.mem_singleton] at hrow
        rcases hrow with h | h
        · exact s3 row h hid
        · rw [h] at hid
          exact absurd hid.symm hne
  | run io jobID filename =>
    have hmem : (jobID, filename) ∈ σ.runs := by
      simpa [Sys.enabled] using he
    have hne : r.ID ≠ jobID := by
      intro e
      exact s2 (e ▸ List.mem_map_of_mem (fun p => p.1) hmem)
    have hrs := (processConversion_single_write σ.server io jobID filename).2
    refine ⟨s1, fun h => s2 (erase_fst_subset _ _ _ h), ?_⟩
    intro row hrow hid
    obtain ⟨row0, h0, hstep⟩ := forall₂_mem_right hrs row hrow
    have hid0 : row0.ID = r.ID := hstep.1.symm.trans hid
    have heq : row = row0 := hstep.2.2.2.1 (by rw [hid0]; exact hne)
    rw [heq]
    exact s3 row0 h0 hid0
  | delete io id =>
    exact ⟨s1, s2, fun row hrow =>
      s3 row ((handleDeleteConvert_db_sublist σ.server io id).subset hrow)⟩
  | sweep io cutoffTime =>
    exact ⟨s1, s2, fun row hrow =>
      s3 row ((cleanupTick_db_sublist σ.server io cutoffTime).subset hrow)⟩
  | register c => exact ⟨s1, s2, s3⟩
  | unregister c => exact ⟨s1, s2, s3⟩

theorem Sys.inv_exec : ∀ (ops : List Op) (σ : Sys), σ.Inv → Sys.possible ops σ = true →
    (Sys.exec ops σ).Inv := by
  intro ops
  induction ops with
  | nil => intro σ hi _; exact hi
  | cons op ops ih =>
    intro σ hi hp
    simp only [Sys.possible, Bool.and_eq_true] at hp
    exact ih _ (Sys.inv_step σ op hi hp.1) hp.2

theorem Sys.settled_exec (r : ConvertJob) : ∀ (ops : List Op) (σ : Sys), σ.Settled r →
    Sys.possible ops σ = true → (Sys.exec ops σ).Settled r := by
  intro ops
  induction ops with
  | nil => intro σ hs _; exact hs
  | cons op ops ih =>
    intro σ hs hp
    simp only [Sys.possible, Bool.and_eq_true] at hp
    exact ih _ (Sys.settled_step σ op r hs hp.1) hp.2

theorem Sys.settled_of_terminal (σ : Sys) (hi : σ.Inv) (r : ConvertJob)
    (hr : r ∈ σ.server.db) (ht : Terminal r) : σ.Settled r := by
  obtain ⟨i1, _, _, i4, i5⟩ := hi
  exact ⟨i1 r hr, i5 r hr ht, fun row hrow hid => List.inj_on_of_nodup_map i4 hrow hr hid⟩


/-! ## C1: status monotonicity -/

/-- C1: in every state that the server reaches from its start by uploads, the
runs that these uploads start, delete requests, sweeper ticks and observers
coming and going, a stored row whose status is complete or failed is never
changed again: after any further operations every row with its identifier is
that same row, with that same status (the row can only be removed). And every
run of processConversion makes exactly one store write, an UpdateJob for its
own job with status failed or complete, which changes no other row. -/
theorem status_monotonic (s0 : Server) (hwf : s0.db.WF) (ops later : List Op)
    (h1 : Sys.possible ops (Sys.start s0) = true)
    (h2 : Sys.possible later (Sys.exec ops (Sys.start s0)) = true)
    (r : ConvertJob) (hr : r ∈ (Sys.exec ops (Sys.start s0)).server.db) (ht : Terminal r) :
    (∀ r' ∈ (Sys.exec later (Sys.exec ops (Sys.start s0))).server.db, r'.ID = r.ID →
      r' = r ∧ r'.Status = r.Status) ∧
    (∀ (s : Server) (io : ConvIO) (jobID filename : String),
      (∃ pre job ok post,
        (processConversion s io jobID filename).trace =
          s.trace ++ pre ++ Action.dbUpdate job ok :: post ∧
        (∀ a ∈ pre ++ post, isStoreWrite a = false) ∧ job.ID = jobID ∧
        (job.Status = StatusFailed ∨ job.Status = StatusComplete)) ∧
      List.Forall₂ (RowStep jobID) s.db (processConversion s io jobID filename).db) := by
  refine ⟨?_, processConversion_single_write⟩
  intro r' hr' hid
  have hinv := Sys.inv_exec ops (Sys.start s0) (Sys.inv_start s0 hwf) h1
  have hset := Sys.settled_of_terminal _ hinv r hr ht
  have hset' := Sys.settled_exec r later _ hset h2
  have := hset'.2.2 r' hr' hid
  exact ⟨this, by rw [this]⟩

/-- C1, at an upload that is converted, followed by a second upload whose run
fails, a sweeper tick and a new observer: the complete row of the first job is
the same afterwards. -/
theorem status_monotonic_example :
    emptyServer.db.WF ∧
    Sys.possible uploadAndRun (Sys.start emptyServer) = true ∧
    Sys.possible laterOps (Sys.exec uploadAndRun (Sys.start emptyServer)) = true ∧
    finishedJob reportCreateIO reportUpload reportRunIO ∈
      (Sys.exec uploadAndRun (Sys.start emptyServer)).server.db ∧
    Terminal (finishedJob reportCreateIO reportUpload reportRunIO) ∧
    (Sys.exec laterOps (Sys.exec uploadAndRun (Sys.start emptyServer))).server.db.map
      (fun r => (r.ID, r.Status)) = [("j2", "complete"), ("j3", "failed")] ∧
    (∀ r' ∈ (Sys.exec laterOps (Sys.exec uploadAndRun (Sys.start emptyServer))).server.db,
      r'.ID = (finishedJob reportCreateIO reportUpload reportRunIO).ID →
      r' = finishedJob reportCreateIO reportUpload reportRunIO ∧
      r'.Status = (finishedJob reportCreateIO reportUpload reportRunIO).Status) :=
  ⟨by decide, by decide, by decide, by decide, Or.inl rfl, by decide,
    (status_monotonic emptyServer (by decide) uploadAndRun laterOps (by decide) (by decide)
      (finishedJob reportCreateIO reportUpload reportRunIO) (by decide) (Or.inl rfl)).1⟩

end DocConv
